import Mathlib

/-!
A verification development for the Miraverse study-tool front-end: the
resilient structured-output extractor (`extractQuiz`, `parseInfographic`,
`parseSlides`, `parseFlashcards` from `src/app/page.tsx`), the WAV header
writer (`createWavHeader` from `src/lib/gemini.ts`), and the audio-assembly
and request-handling logic of the generate endpoint
(`src/app/api/generate/route.ts`).

JavaScript strings are modelled as `List Char`; byte buffers as `List Nat`.
JSON numbers are modelled as integers: inputs whose JSON contains fractional
or exponent number forms are outside the scope of this development (the
parser rejects them), which is noted at `parseJsonNumber`.  JavaScript
whitespace classes are modelled by their ASCII members; exotic Unicode
whitespace is not modelled.
-/

/-- The characters matched by JavaScript's `\s` class and by `String.trim`,
restricted to the ASCII range (Unicode spaces such as U+00A0 are omitted). -/
def jsWsChar (c : Char) : Bool :=
  c = ' ' || c = '\t' || c = '\n' || c = '\r' || c = '\x0b' || c = '\x0c'

/-- JSON's own whitespace set (RFC 8259): space, tab, line feed, carriage return. -/
def jsonWsChar (c : Char) : Bool :=
  c = ' ' || c = '\t' || c = '\n' || c = '\r'

def isDigitChar (c : Char) : Bool := '0' ≤ c && c ≤ '9'

/-- Case folding used by the `/i` regex flag on the characters that occur in
the source's patterns: ASCII letters and the Russian Cyrillic block. -/
def lowerChar (c : Char) : Char :=
  if 'A' ≤ c && c ≤ 'Z' then Char.ofNat (c.toNat + 32)
  else if 0x410 ≤ c.toNat && c.toNat ≤ 0x42F then Char.ofNat (c.toNat + 0x20)
  else if c.toNat = 0x401 then Char.ofNat 0x451
  else c

/-- `String.prototype.trim` (ASCII whitespace; see `jsWsChar`). -/
def jsTrim (cs : List Char) : List Char :=
  ((cs.dropWhile jsWsChar).reverse.dropWhile jsWsChar).reverse

/-- Case-insensitive prefix test; the needle is supplied already lower-cased. -/
def prefixCI : List Char → List Char → Bool
  | [], _ => true
  | _ :: _, [] => false
  | n :: ns, c :: cs => lowerChar c = n && prefixCI ns cs

/-- Index of the first (leftmost) case-insensitive occurrence of the needle. -/
def findCI (needle : List Char) : List Char → Option Nat
  | [] => if needle.isEmpty then some 0 else none
  | c :: cs =>
    if prefixCI needle (c :: cs) then some 0
    else (findCI needle cs).map (· + 1)

/-- Index of the first occurrence of a character (`String.prototype.indexOf`). -/
def idxOf (ch : Char) : List Char → Option Nat
  | [] => none
  | c :: cs => if c = ch then some 0 else (idxOf ch cs).map (· + 1)

/-- Index of the last occurrence of a character (`String.prototype.lastIndexOf`). -/
def lastIdxOf (ch : Char) (cs : List Char) : Option Nat :=
  (idxOf ch cs.reverse).map (fun j => cs.length - 1 - j)

/-- Substring test (case-sensitive). -/
def containsSub (needle : List Char) : List Char → Bool
  | [] => needle.isEmpty
  | c :: cs => needle.isPrefixOf (c :: cs) || containsSub needle cs

/-- A parsed JSON value.  Numbers are restricted to integers (see the header
comment); object members are kept in source order, and property lookup takes
the last binding of a duplicated key, as `JSON.parse` does. -/
inductive Json where
  | null
  | bool (b : Bool)
  | num (n : Int)
  | str (s : List Char)
  | arr (elems : List Json)
  | obj (members : List (List Char × Json))

/-- Skip JSON whitespace. -/
def skipJsonWs : List Char → List Char
  | c :: cs => if jsonWsChar c then skipJsonWs cs else c :: cs
  | [] => []

/-- Split off a maximal run of decimal digits. -/
def spanDigits : List Char → List Char × List Char
  | c :: cs =>
    if isDigitChar c then
      let p := spanDigits cs
      (c :: p.1, p.2)
    else ([], c :: cs)
  | [] => ([], [])

def digitsVal (ds : List Char) : Nat :=
  ds.foldl (fun a c => a * 10 + (c.toNat - 48)) 0

/-- JSON number grammar, restricted to integers: an optional minus sign and a
digit run without a leading zero.  A following `.`, `e` or `E` (fraction or
exponent, which `JSON.parse` would accept) makes this model's parse fail, so
all parse-success hypotheses below range over integral JSON only. -/
def parseJsonNumber (cs : List Char) : Option (Int × List Char) :=
  let p : Bool × List Char := match cs with
    | '-' :: r => (true, r)
    | _ => (false, cs)
  match spanDigits p.2 with
  | ([], _) => none
  | (d :: ds, rest) =>
    if d = '0' && !ds.isEmpty then none
    else
      match rest with
      | '.' :: _ => none
      | 'e' :: _ => none
      | 'E' :: _ => none
      | _ =>
        let v : Int := Int.ofNat (digitsVal (d :: ds))
        some ((if p.1 then -v else v), rest)

def hexDigitVal (c : Char) : Option Nat :=
  if isDigitChar c then some (c.toNat - 48)
  else if 'a' ≤ c && c ≤ 'f' then some (c.toNat - 87)
  else if 'A' ≤ c && c ≤ 'F' then some (c.toNat - 55)
  else none

/-- JSON string body (after the opening quote): escapes, `\uXXXX`, and the
ban on raw control characters.  A `\uXXXX` denoting a lone UTF-16 surrogate
is not representable as a `Char` and is mapped to the replacement value that
`Char.ofNat` yields; no claim below exercises surrogates. -/
def parseJsonString : List Char → Option (List Char × List Char)
  | '"' :: rest => some ([], rest)
  | '\\' :: 'u' :: h1 :: h2 :: h3 :: h4 :: rest =>
    match hexDigitVal h1, hexDigitVal h2, hexDigitVal h3, hexDigitVal h4 with
    | some a, some b, some c, some d =>
      (parseJsonString rest).map
        (fun p => (Char.ofNat (((a * 16 + b) * 16 + c) * 16 + d) :: p.1, p.2))
    | _, _, _, _ => none
  | '\\' :: e :: rest =>
    let esc : Option Char := match e with
      | '"' => some '"'
      | '\\' => some '\\'
      | '/' => some '/'
      | 'b' => some '\x08'
      | 'f' => some '\x0c'
      | 'n' => some '\n'
      | 'r' => some '\r'
      | 't' => some '\t'
      | _ => none
    esc.bind (fun ch => (parseJsonString rest).map (fun p => (ch :: p.1, p.2)))
  | c :: rest =>
    if c.toNat < 0x20 then none
    else (parseJsonString rest).map (fun p => (c :: p.1, p.2))
  | [] => none

/-- Comma-separated JSON array elements up to the closing bracket.  `pv`
parses one value; the fuel bounds the element count (each element consumes at
least one character, so the caller's fuel of `length + 1` always suffices). -/
def parseJsonElems (pv : List Char → Option (Json × List Char)) :
    Nat → List Char → Option (List Json × List Char)
  | 0, _ => none
  | f + 1, cs =>
    (pv cs).bind fun p =>
      match skipJsonWs p.2 with
      | ',' :: r2 =>
        (parseJsonElems pv f (skipJsonWs r2)).map (fun q => (p.1 :: q.1, q.2))
      | ']' :: r2 => some ([p.1], r2)
      | _ => none

/-- Comma-separated JSON object members up to the closing brace. -/
def parseJsonMembers (pv : List Char → Option (Json × List Char)) :
    Nat → List Char → Option (List (List Char × Json) × List Char)
  | 0, _ => none
  | f + 1, cs =>
    match cs with
    | '"' :: r0 =>
      (parseJsonString r0).bind fun kp =>
        match skipJsonWs kp.2 with
        | ':' :: r2 =>
          (pv (skipJsonWs r2)).bind fun vp =>
            match skipJsonWs vp.2 with
            | ',' :: r4 =>
              (parseJsonMembers pv f (skipJsonWs r4)).map
                (fun q => ((kp.1, vp.1) :: q.1, q.2))
            | '}' :: r4 => some ([(kp.1, vp.1)], r4)
            | _ => none
        | _ => none
    | _ => none

/-- One JSON value; the fuel bounds nesting depth. -/
def parseJsonValue : Nat → List Char → Option (Json × List Char)
  | 0, _ => none
  | f + 1, cs =>
    match cs with
    | 'n' :: 'u' :: 'l' :: 'l' :: rest => some (.null, rest)
    | 't' :: 'r' :: 'u' :: 'e' :: rest => some (.bool true, rest)
    | 'f' :: 'a' :: 'l' :: 's' :: 'e' :: rest => some (.bool false, rest)
    | '"' :: rest => (parseJsonString rest).map (fun p => (.str p.1, p.2))
    | '[' :: rest =>
      let r1 := skipJsonWs rest
      (match r1 with
       | ']' :: r2 => some (.arr [], r2)
       | _ =>
         (parseJsonElems (parseJsonValue f) (r1.length + 1) r1).map
           (fun p => (.arr p.1, p.2)))
    | '{' :: rest =>
      let r1 := skipJsonWs rest
      (match r1 with
       | '}' :: r2 => some (.obj [], r2)
       | _ =>
         (parseJsonMembers (parseJsonValue f) (r1.length + 1) r1).map
           (fun p => (.obj p.1, p.2)))
    | _ => (parseJsonNumber cs).map (fun p => (.num p.1, p.2))

/-- `JSON.parse`: optional surrounding whitespace around a single value,
nothing else.  `none` models a thrown `SyntaxError`. -/
def jsonParse (cs : List Char) : Option Json :=
  let t := skipJsonWs cs
  match parseJsonValue (t.length + 1) t with
  | some (v, rest) => if (skipJsonWs rest).isEmpty then some v else none
  | none => none


/-! ## JavaScript value coercions -/

/-- Property access `v.k` on a parsed JSON value: a field of an object
(taking the last binding of a duplicated key), `undefined` otherwise.
Access on `null` throws in JavaScript; at every call site in the source the
throw is caught by the same `try` that would consume an `undefined`, so
`none` models both outcomes. -/
def lookupField (k : List Char) : List (List Char × Json) → Option Json
  | [] => none
  | (k', v) :: rest =>
    match lookupField k rest with
    | some w => some w
    | none => if k' = k then some v else none

def getField (v : Json) (k : List Char) : Option Json :=
  match v with
  | .obj ms => lookupField k ms
  | _ => none

/-- The result of JavaScript's `Number(...)` coercion: an integer or `NaN`
(float results are outside this development's integer-number model). -/
inductive JsNum where
  | num (n : Int)
  | nan
deriving DecidableEq

/-- `Number(string)`: trimmed empty string is 0, an optionally signed digit
run is its value, anything else is `NaN`.  (Hex, float and `Infinity` forms
are not modelled; they yield `NaN` here, noted as a restriction.) -/
def jsStringToNumber (s : List Char) : JsNum :=
  let t := jsTrim s
  match t with
  | [] => .num 0
  | _ =>
    let p : Bool × List Char := match t with
      | '-' :: r => (true, r)
      | '+' :: r => (false, r)
      | _ => (false, t)
    match spanDigits p.2 with
    | ([], _) => .nan
    | (ds, []) =>
      let v : Int := Int.ofNat (digitsVal ds)
      .num (if p.1 then -v else v)
    | (_, _ :: _) => .nan

mutual

/-- `String(...)` on a parsed JSON value (`Array.prototype.toString` joins
elements with commas, rendering `null` elements as empty). -/
def jsToString : Json → List Char
  | .null => "null".toList
  | .bool true => "true".toList
  | .bool false => "false".toList
  | .num n => (toString n).toList
  | .str s => s
  | .arr xs => List.intercalate (",".toList) (jsArrElemStrings xs)
  | .obj _ => "[object Object]".toList

def jsArrElemStrings : List Json → List (List Char)
  | [] => []
  | x :: xs =>
    (match x with
     | .null => []
     | y => jsToString y) :: jsArrElemStrings xs

end

/-- `Number(...)` on a parsed JSON value.  Arrays and objects coerce through
their string form, as JavaScript's `ToPrimitive` does. -/
def jsNumber : Json → JsNum
  | .null => .num 0
  | .bool true => .num 1
  | .bool false => .num 0
  | .num n => .num n
  | .str s => jsStringToNumber s
  | .arr xs => jsStringToNumber (jsToString (.arr xs))
  | .obj ms => jsStringToNumber (jsToString (.obj ms))

/-- JavaScript truthiness of a parsed JSON value. -/
def jsTruthy : Json → Bool
  | .null => false
  | .bool b => b
  | .num n => n ≠ 0
  | .str s => !s.isEmpty
  | .arr _ => true
  | .obj _ => true

/-! ## The quiz extractor (`extractQuiz`, `src/app/page.tsx` 55-158) -/

/-- A quiz question as built by the extractor.  `answer` is whatever
`Number(q.answer ?? 0)` produced (JSON path) or the marked option index
(markdown fallback). -/
structure QuizQuestion where
  question : List Char
  options : List (List Char)
  answer : JsNum
deriving DecidableEq

structure ParsedQuiz where
  quiz : Option (List QuizQuestion)
  message : List Char
deriving DecidableEq

/-- The regex `/```json([\s\S]*?)```/i`: leftmost occurrence of "```json"
(case-insensitive), then the shortest stretch up to the next "```".  If the
leftmost opener has no closer, no later opener can have one either, so the
whole match fails. -/
def codeFence (raw : List Char) : Option (List Char) :=
  match findCI ("```json".toList) raw with
  | none => none
  | some i =>
    let rest := raw.drop (i + 7)
    match findCI ("```".toList) rest with
    | none => none
    | some j => some (rest.take j)

/-- `raw.slice(start, end + 1)` between the first `{` and the last `}`,
falling back to the whole text (page.tsx 57-62). -/
def braceSlice (raw : List Char) : List Char :=
  match idxOf '{' raw, lastIdxOf '}' raw with
  | some s, some e => if s < e then (raw.drop s).take (e + 1 - s) else raw
  | some _, none => raw
  | none, _ => raw

/-- `raw.replace(/```json|```/gi, "")`: left-to-right scan, preferring the
longer alternative at each position.  Fuel-bounded (a match skips several
characters at once); every step consumes at least one character, so fuel
`length + 1` always suffices, and exhausted fuel returns the rest unchanged. -/
def stripFenceGo : Nat → List Char → List Char
  | 0, cs => cs
  | f + 1, '`' :: '`' :: '`' :: c1 :: c2 :: c3 :: c4 :: rest2 =>
    if lowerChar c1 = 'j' && lowerChar c2 = 's' && lowerChar c3 = 'o' && lowerChar c4 = 'n'
    then stripFenceGo f rest2
    else stripFenceGo f (c1 :: c2 :: c3 :: c4 :: rest2)
  | f + 1, '`' :: '`' :: '`' :: rest => stripFenceGo f rest
  | f + 1, c :: rest => c :: stripFenceGo f rest
  | _, [] => []

def stripFenceTokens (cs : List Char) : List Char := stripFenceGo (cs.length + 1) cs

/-- `.replace(/\r?\n/g, " ")`; a lone carriage return is not matched. -/
def newlinesToSpace : List Char → List Char
  | '\r' :: '\n' :: rest => ' ' :: newlinesToSpace rest
  | '\n' :: rest => ' ' :: newlinesToSpace rest
  | c :: rest => c :: newlinesToSpace rest
  | [] => []

/-- `.replace(/,\s*([}\]])/g, "$1")`, fuel-bounded because a successful
match skips past the whitespace run; fuel `length + 1` always suffices. -/
def dropCommaRun : Nat → List Char → List Char
  | 0, cs => cs
  | f + 1, ',' :: rest =>
    (match rest.dropWhile jsWsChar with
     | '}' :: r3 => '}' :: dropCommaRun f r3
     | ']' :: r3 => ']' :: dropCommaRun f r3
     | _ => ',' :: dropCommaRun f rest)
  | f + 1, c :: rest => c :: dropCommaRun f rest
  | _, [] => []

def removeCommaBeforeBracket (cs : List Char) : List Char :=
  dropCommaRun (cs.length + 1) cs

/-- `.replace(/\s+/g, " ")` via a was-the-previous-character-whitespace flag. -/
def collapseWsGo : Bool → List Char → List Char
  | _, [] => []
  | prevWs, c :: rest =>
    if jsWsChar c then
      (if prevWs then collapseWsGo true rest else ' ' :: collapseWsGo true rest)
    else c :: collapseWsGo false rest

def collapseWs (cs : List Char) : List Char := collapseWsGo false cs

/-- The `cleanJson` normalizer (page.tsx 94-100): strip fence tokens, turn
newlines into spaces, drop commas directly before a closing bracket,
collapse whitespace runs, trim. -/
def cleanJson (cs : List Char) : List Char :=
  jsTrim (collapseWs (removeCommaBeforeBracket (newlinesToSpace (stripFenceTokens cs))))

/-- A match of `/"questions"\s*:\s*(\[[\s\S]*?\])/` anchored at the start of
`cs`; the lazy group ends at the first `]`. -/
def matchQuestionsAt (cs : List Char) : Option (List Char) :=
  let key := "\"questions\"".toList
  if key.isPrefixOf cs then
    match (cs.drop key.length).dropWhile jsWsChar with
    | ':' :: r2 =>
      (match r2.dropWhile jsWsChar with
       | '[' :: r4 =>
         let inner := r4.takeWhile (fun c => c ≠ ']')
         (match r4.dropWhile (fun c => c ≠ ']') with
          | ']' :: _ => some ('[' :: inner ++ [']'])
          | _ => none)
       | _ => none)
    | _ => none
  else none

/-- Leftmost match of the `"questions"` fragment pattern (page.tsx 104). -/
def questionsFragment : List Char → Option (List Char)
  | [] => none
  | c :: rest =>
    match matchQuestionsAt (c :: rest) with
    | some frag => some frag
    | none => questionsFragment rest

/-- `{"questions":` … `}` wrapping of a matched fragment (page.tsx 106). -/
def wrapQuestions (frag : List Char) : List Char :=
  "\x7b\"questions\":".toList ++ frag ++ ['\x7d']

/-- The element filter of `parseQuestionsArray`: a string `question` and an
`options` array of exactly 4 strings. -/
def questionValid (q : Json) : Bool :=
  (match getField q ("question".toList) with
   | some (.str _) => true
   | _ => false) &&
  (match getField q ("options".toList) with
   | some (.arr os) =>
     os.length = 4 && os.all (fun o => match o with | .str _ => true | _ => false)
   | _ => false)

def asStr : Json → Option (List Char)
  | .str s => some s
  | _ => none

/-- `Number(q.answer ?? 0)`: 0 when the field is absent or `null`, otherwise
the JavaScript numeric coercion of its value. -/
def quizAnswer (q : Json) : JsNum :=
  match getField q ("answer".toList) with
  | none => .num 0
  | some .null => .num 0
  | some j => jsNumber j

def mkQuizQuestion (q : Json) : QuizQuestion :=
  { question := match getField q ("question".toList) with
      | some (.str s) => s
      | _ => []
    options := match getField q ("options".toList) with
      | some (.arr os) => os.filterMap asStr
      | _ => []
    answer := quizAnswer q }

/-- `parseQuestionsArray` (page.tsx 64-92): keep the elements of a
`questions` array that pass `questionValid`, in order; `undefined` (here
`none`) when there is no array or no element survives. -/
def parseQuestionsArray (v : Json) : Option (List QuizQuestion) :=
  match getField v ("questions".toList) with
  | some (.arr qs) =>
    let quiz := (qs.filter questionValid).map mkQuizQuestion
    if quiz.isEmpty then none else some quiz
  | _ => none

/-- The candidate loop (page.tsx 110-116): first candidate whose parse and
validation both succeed wins; `JSON.parse` exceptions fall through. -/
def tryParseCandidates : List (List Char) → Option (List QuizQuestion)
  | [] => none
  | c :: rest =>
    match jsonParse c with
    | some v =>
      (match parseQuestionsArray v with
       | some quiz => some quiz
       | none => tryParseCandidates rest)
    | none => tryParseCandidates rest

/-! ### The markdown fallback (page.tsx 118-153) -/

/-- `.replace(/\*\*/g, "")`. -/
def stripBold : List Char → List Char
  | '*' :: '*' :: rest => stripBold rest
  | c :: rest => c :: stripBold rest
  | [] => []

/-- `.replace(/^#+/gm, "")`: drop a run of `#` at the start of the text and
after every line terminator (multiline `^` also fires after a lone `\r`). -/
def stripHeadingsGo : Bool → List Char → List Char
  | _, [] => []
  | true, '#' :: rest => stripHeadingsGo true rest
  | _, '\n' :: rest => '\n' :: stripHeadingsGo true rest
  | _, '\r' :: rest => '\r' :: stripHeadingsGo true rest
  | _, c :: rest => c :: stripHeadingsGo false rest

def stripHeadings (cs : List Char) : List Char := stripHeadingsGo true cs

/-- `.split(/\r?\n/)`. -/
def splitLines : List Char → List (List Char)
  | '\r' :: '\n' :: rest => [] :: splitLines rest
  | '\n' :: rest => [] :: splitLines rest
  | c :: rest =>
    match splitLines rest with
    | l :: ls => (c :: l) :: ls
    | [] => [[c]]
  | [] => [[]]

/-- Lines of the fallback scan: bold and heading markers removed, split,
trimmed, empties dropped (page.tsx 119-124). -/
def cleanedLines (raw : List Char) : List (List Char) :=
  ((splitLines (stripHeadings (stripBold raw))).map jsTrim).filter (fun l => !l.isEmpty)

/-- `questionRegex = /^\d+[).]\s+(.+)/` applied to a line: a digit run, `)`
or `.`, at least one whitespace character, then a non-empty capture running
to the end of the line (`.` cannot cross a line terminator; lines here are
pre-trimmed, so the greedy whitespace run never needs to backtrack). -/
def questionLineMatch (l : List Char) : Option (List Char) :=
  match spanDigits l with
  | ([], _) => none
  | (_ :: _, c :: r2) =>
    if c = ')' || c = '.' then
      let w := r2.takeWhile jsWsChar
      let r3 := r2.dropWhile jsWsChar
      let cap := r3.takeWhile (fun ch => ch ≠ '\n' && ch ≠ '\r')
      if w.isEmpty || cap.isEmpty then none else some cap
    else none
  | (_ :: _, []) => none

/-- The case-insensitive closure of the class `[A-DА-Га-г]`. -/
def optionLetter (c : Char) : Bool :=
  ('A' ≤ c && c ≤ 'D') || ('a' ≤ c && c ≤ 'd') ||
  (0x410 ≤ c.toNat && c.toNat ≤ 0x413) || (0x430 ≤ c.toNat && c.toNat ≤ 0x433)

/-- `optionRegex = /^[-*]?\s*[A-DА-Га-г][).]\s*(.+)$/i` applied to a line.
The marker, whitespace and letter classes are pairwise disjoint, so the
greedy left-to-right reading needs no backtracking; the `$` anchor makes the
match fail if a line terminator remains in the capture. -/
def optionLineMatch (l : List Char) : Option (List Char) :=
  let l1 := match l with
    | c :: r => if c = '-' || c = '*' then r else c :: r
    | [] => []
  match l1.dropWhile jsWsChar with
  | c :: b :: r3 =>
    if optionLetter c && (b = ')' || b = '.') then
      let r4 := r3.dropWhile jsWsChar
      if r4.isEmpty || r4.any (fun ch => ch = '\n' || ch = '\r') then none else some r4
    else none
  | _ => none

/-- `/верн|правил|correct|✔|✅/i.test(text)`. -/
def markerTest (t : List Char) : Bool :=
  let lt := t.map lowerChar
  containsSub ("верн".toList) lt || containsSub ("правил".toList) lt ||
  containsSub ("correct".toList) lt || containsSub ("✔".toList) lt ||
  containsSub ("✅".toList) lt

/-- One iteration of the fallback line scan (page.tsx 132-152), carrying the
finished questions and the question being accumulated. -/
def mdStep (st : List QuizQuestion × Option QuizQuestion) (line : List Char) :
    List QuizQuestion × Option QuizQuestion :=
  match questionLineMatch line with
  | some qt =>
    let fin := match st.2 with
      | some cur => if cur.options.length = 4 then st.1 ++ [cur] else st.1
      | none => st.1
    (fin, some { question := jsTrim qt, options := [], answer := .num 0 })
  | none =>
    match st.2 with
    | some cur =>
      (match optionLineMatch line with
       | some cap =>
         if cur.options.length < 4 then
           let text := jsTrim cap
           (st.1, some { question := cur.question
                         options := cur.options ++ [text]
                         answer := if markerTest text then .num cur.options.length
                                   else cur.answer })
         else st
       | none => st)
    | none => st

/-- The whole markdown fallback: scan the cleaned lines, then flush a
pending question that has exactly 4 options (page.tsx 126-153). -/
def markdownQuiz (raw : List Char) : List QuizQuestion :=
  let st := (cleanedLines raw).foldl mdStep ([], none)
  match st.2 with
  | some cur => if cur.options.length = 4 then st.1 ++ [cur] else st.1
  | none => st.1

def readyMessage : List Char := "Тест готов. Нажмите, чтобы пройти.".toList

/-- `extractQuiz` (page.tsx 55-158). -/
def extractQuiz (raw : List Char) : ParsedQuiz :=
  let jsonCandidate := match codeFence raw with
    | some c => c
    | none => braceSlice raw
  let tryParsers := [jsonCandidate, cleanJson jsonCandidate] ++
    (match questionsFragment raw with
     | some frag => [wrapQuestions frag, cleanJson (wrapQuestions frag)]
     | none => [])
  match tryParseCandidates tryParsers with
  | some quiz => { quiz := some quiz, message := readyMessage }
  | none =>
    let quiz := markdownQuiz raw
    if quiz.isEmpty then { quiz := none, message := raw }
    else { quiz := some quiz, message := readyMessage }






/-! ## Structured parsers for the other modes (page.tsx 160-235) -/

structure InfoBlock where
  title : List Char
  content : List Char
deriving DecidableEq

structure InfographicSpec where
  title : List Char
  blocks : List InfoBlock
  takeaway : Option (List Char)
deriving DecidableEq

/-- The per-block filter of `parseInfographic`: string `title` and `content`. -/
def blockValid (b : Json) : Bool :=
  (match getField b ("title".toList) with
   | some (.str _) => true
   | _ => false) &&
  (match getField b ("content".toList) with
   | some (.str _) => true
   | _ => false)

def mkInfoBlock (b : Json) : InfoBlock :=
  { title := match getField b ("title".toList) with
      | some (.str s) => s
      | _ => []
    content := match getField b ("content".toList) with
      | some (.str s) => s
      | _ => [] }

/-- The truthiness test `parsed?.title` used by the infographic and slides
parsers (note: a truthiness test, not a string-type test). -/
def titleTruthy (parsed : Json) : Bool :=
  match getField parsed ("title".toList) with
  | some t => jsTruthy t
  | none => false

/-- `parseInfographic` (page.tsx 160-184). -/
def parseInfographic (raw : List Char) : Option InfographicSpec :=
  let cleaned := jsTrim (stripFenceTokens raw)
  match jsonParse cleaned with
  | some parsed =>
    if titleTruthy parsed then
      match getField parsed ("blocks".toList) with
      | some (.arr bs) =>
        let blocks := (bs.filter blockValid).map mkInfoBlock
        if blocks.isEmpty then none
        else some
          { title := jsToString ((getField parsed ("title".toList)).getD .null)
            blocks := blocks
            takeaway := match getField parsed ("takeaway".toList) with
              | some (.str s) => some s
              | _ => none }
      | _ => none
    else none
  | none => none

structure SlideSpec where
  title : List Char
  bullets : List (List Char)
deriving DecidableEq

structure SlidesSpec where
  title : List Char
  slides : List SlideSpec
deriving DecidableEq

/-- The per-slide filter of `parseSlides`: string `title` and an array `bullets`. -/
def slideValid (s : Json) : Bool :=
  (match getField s ("title".toList) with
   | some (.str _) => true
   | _ => false) &&
  (match getField s ("bullets".toList) with
   | some (.arr _) => true
   | _ => false)

def mkSlideSpec (s : Json) : SlideSpec :=
  { title := match getField s ("title".toList) with
      | some (.str t) => t
      | _ => []
    bullets := match getField s ("bullets".toList) with
      | some (.arr bs) => bs.filterMap asStr
      | _ => [] }

/-- `parseSlides` (page.tsx 186-210): valid slides keep their string bullets
only, and a slide whose bullet list becomes empty is dropped. -/
def parseSlides (raw : List Char) : Option SlidesSpec :=
  let cleaned := jsTrim (stripFenceTokens raw)
  match jsonParse cleaned with
  | some parsed =>
    if titleTruthy parsed then
      match getField parsed ("slides".toList) with
      | some (.arr ss) =>
        let slides :=
          (((ss.filter slideValid).map mkSlideSpec).filter (fun s => !s.bullets.isEmpty))
        if slides.isEmpty then none
        else some
          { title := jsToString ((getField parsed ("title".toList)).getD .null)
            slides := slides }
      | _ => none
    else none
  | none => none

structure Flashcard where
  front : List Char
  back : List Char
deriving DecidableEq

structure FlashcardsSpec where
  title : List Char
  cards : List Flashcard
deriving DecidableEq

/-- The per-card filter of `parseFlashcards`: string `front` and `back`. -/
def cardValid (c : Json) : Bool :=
  (match getField c ("front".toList) with
   | some (.str _) => true
   | _ => false) &&
  (match getField c ("back".toList) with
   | some (.str _) => true
   | _ => false)

def mkFlashcard (c : Json) : Flashcard :=
  { front := match getField c ("front".toList) with
      | some (.str s) => s
      | _ => []
    back := match getField c ("back".toList) with
      | some (.str s) => s
      | _ => [] }

/-- `parseFlashcards` (page.tsx 217-235): requires a `cards` array; `title`
defaults to the fixed placeholder when absent or not a string. -/
def parseFlashcards (raw : List Char) : Option FlashcardsSpec :=
  let cleaned := jsTrim (stripFenceTokens raw)
  match jsonParse cleaned with
  | some parsed =>
    match getField parsed ("cards".toList) with
    | some (.arr cs) =>
      let cards := (cs.filter cardValid).map mkFlashcard
      if cards.isEmpty then none
      else some
        { title := match getField parsed ("title".toList) with
            | some (.str s) => s
            | _ => "Карточки".toList
          cards := cards }
    | _ => none
  | none => none

/-! ## The WAV header writer (`createWavHeader`, gemini.ts 170-194) -/

/-- The bytes a `DataView.setUint32(_, n, true)` writes: `n mod 2^32` in
little-endian order. -/
def le32 (n : Nat) : List Nat :=
  [n % 256, n / 256 % 256, n / 65536 % 256, n / 16777216 % 256]

/-- The bytes a `DataView.setUint16(_, n, true)` writes. -/
def le16 (n : Nat) : List Nat :=
  [n % 256, n / 256 % 256]

/-- `writeString`: the ASCII codes of a tag. -/
def asciiCodes (s : String) : List Nat := s.toList.map Char.toNat

/-- `createWavHeader(dataLength, sampleRate, numChannels, bitsPerSample)`
(gemini.ts 170-194), as the 44-byte sequence the DataView writes.  The
source computes `sampleRate * numChannels * (bitsPerSample / 8)` in float
arithmetic and truncates on `setUint32`; for natural arguments that equals
the natural-number quotient used here. -/
def createWavHeader (dataLength : Nat) (sampleRate : Nat := 24000)
    (numChannels : Nat := 1) (bitsPerSample : Nat := 16) : List Nat :=
  asciiCodes "RIFF" ++ le32 (36 + dataLength) ++ asciiCodes "WAVE" ++
  asciiCodes "fmt " ++ le32 16 ++ le16 1 ++ le16 numChannels ++
  le32 sampleRate ++ le32 (sampleRate * numChannels * bitsPerSample / 8) ++
  le16 (numChannels * bitsPerSample / 8) ++ le16 bitsPerSample ++
  asciiCodes "data" ++ le32 dataLength

/-- Little-endian read-back of a 32-bit field at a byte offset. -/
def readLE32 (bs : List Nat) (off : Nat) : Nat :=
  bs.getD off 0 + 256 * bs.getD (off + 1) 0 +
  65536 * bs.getD (off + 2) 0 + 16777216 * bs.getD (off + 3) 0

/-- Little-endian read-back of a 16-bit field at a byte offset. -/
def readLE16 (bs : List Nat) (off : Nat) : Nat :=
  bs.getD off 0 + 256 * bs.getD (off + 1) 0

/-! ## The audio assembler (route.ts 39-103) -/

/-- `dialogue.slice(i, i + CHUNK_SIZE)` for `i = 0, CHUNK_SIZE, …`:
consecutive chunks of at most `n` elements.  Fuel-bounded; the source's loop
with `CHUNK_SIZE = 30 > 0` always advances, and fuel `length` suffices. -/
def chunksOfGo (n : Nat) : Nat → List Json → List (List Json)
  | 0, _ => []
  | _, [] => []
  | f + 1, l => l.take n :: chunksOfGo n f (l.drop n)

def chunksOf (n : Nat) (l : List Json) : List (List Json) := chunksOfGo n l.length l

def CHUNK_SIZE : Nat := 30

/-- The outcome of one `generateMultiSpeakerSpeech` call: a byte buffer, or
a thrown error (whose message the handler logs and swallows). -/
abbrev SynthOutcome := Except (List Char) (List Nat)

/-- The per-chunk loop of the audio branch (route.ts 61-77): a chunk
contributes its buffer minus the 44-byte header when synthesis succeeded and
the buffer is strictly longer than 44 bytes; failed or too-short chunks
contribute nothing and do not abort the loop. -/
def audioPcms (synth : List Json → SynthOutcome) (dialogue : List Json) :
    List (List Nat) :=
  (chunksOf CHUNK_SIZE dialogue).filterMap (fun chunk =>
    match synth chunk with
    | .ok buf => if 44 < buf.length then some (buf.drop 44) else none
    | .error _ => none)

/-- The stitched final WAV (route.ts 80-91): a fresh header for the combined
PCM length, followed by the concatenated PCM chunks. -/
def assembleAudio (synth : List Json → SynthOutcome) (dialogue : List Json) :
    List Nat :=
  let pcms := audioPcms synth dialogue
  createWavHeader (pcms.map List.length).sum ++ pcms.flatten

/-! ## The generate endpoint handler (`POST`, route.ts 14-248)

The remote providers (`runGemini`, `generateImage`, `generateSpeech`,
`generateMultiSpeakerSpeech` from `src/lib/gemini.ts`) are opaque services;
they are modelled as oracle functions returning either a result or a thrown
error message.  Prompt-template text built by the handler flows only into
these oracles, so it is assembled by `promptFor`-style helpers whose exact
wording (long literal prose in the source) is abbreviated; no claim depends
on it.  The `sources` and `history` request fields are likewise forwarded
opaquely and omitted from the request model. -/

structure ProviderEnv where
  runGemini : List Char → List Char → Except (List Char) (List Char)
  generateImage : List Char → Except (List Char) (List Char)
  generateMultiSpeakerSpeech : List Json → SynthOutcome
  generateSpeech : List Char → SynthOutcome

/-- The request body after `req.json()`, cast unchecked to `Body`; either
field may be absent.  (A body that is not an object behaves like one with
both fields absent, since `body?.prompt` is then `undefined`.) -/
structure GenBody where
  modeField : Option (List Char)
  promptField : Option (List Char)

/-- `!body?.prompt` / `!body?.mode`: absent and empty-string values are falsy. -/
def fieldTruthy : Option (List Char) → Bool
  | some s => !s.isEmpty
  | none => false

inductive ApiPayload where
  | textResp (t : List Char)
  | imageResp (image : List Char) (t : List Char)
  | audioResp (title : Json) (wav : List Nat) (t : List Char)
  | slidesResp (title : Json) (slides : List (Json × Option (List Char))) (t : List Char)
  | videoResp (title : Json) (scenes : List (Json × Option (List Char) × Option (List Nat))) (t : List Char)
  | errorResp (msg : List Char)

structure ApiResponse where
  status : Nat
  payload : ApiPayload

def badRequestMessage : List Char := "mode и prompt обязательны".toList

/-- The infographic branch's description prompt (route.ts 25-29); the
literal template prose is abbreviated, the user prompt is embedded. -/
def infographicPrompt (prompt : List Char) : List Char :=
  "infographic description prompt: ".toList ++ prompt

/-- `scriptData.title || <default>` (route.ts 98, 148, 228). -/
def titleOr (parsed : Json) (dflt : List Char) : Json :=
  match getField parsed ("title".toList) with
  | some t => if jsTruthy t then t else .str dflt
  | none => .str dflt

/-- The per-slide visual prompt (route.ts 131-135).  Building it reads
`slide.bullets.slice(0, 3).join(", ")`, which throws inside the per-slide
`try` when `bullets` is not an array; `none` models that throw. -/
def slidePrompt (slide : Json) : Option (List Char) :=
  match getField slide ("bullets".toList) with
  | some (.arr bs) =>
    some ("slide prompt: ".toList ++
      jsToString ((getField slide ("title".toList)).getD .null) ++ " | ".toList ++
      List.intercalate ", ".toList
        ((bs.take 3).map (fun b => match b with | .null => [] | y => jsToString y)))
  | _ => none

/-- The per-scene prep of the video branch (route.ts 195): `scene.headline
|| scene.text.slice(0, 50)` throws (uncaught, so the whole request fails)
when `headline` is falsy and `text` is not a string. -/
def sceneSlideText (scene : Json) : Except (List Char) (List Char) :=
  match getField scene ("headline".toList) with
  | some h =>
    if jsTruthy h then .ok (jsToString h)
    else match getField scene ("text".toList) with
      | some (.str s) => .ok (s.take 50)
      | _ => .error "TypeError: scene.text.slice is not a function".toList
  | none =>
    match getField scene ("text".toList) with
    | some (.str s) => .ok (s.take 50)
    | _ => .error "TypeError: scene.text.slice is not a function".toList

/-- The video branch's JSON candidate (route.ts 163-173): brace slice when
possible, otherwise fence-stripped trim, then the two trailing-comma fixes
(`/,\s*}/` and `/,\s*]/`, jointly one left-to-right comma-fix pass). -/
def videoJsonCandidate (scriptRaw : List Char) : List Char :=
  let sliced := match idxOf '{' scriptRaw, lastIdxOf '}' scriptRaw with
    | some s, some e =>
      if s < e then (scriptRaw.drop s).take (e + 1 - s)
      else jsTrim (stripFenceTokens scriptRaw)
    | _, _ => jsTrim (stripFenceTokens scriptRaw)
  removeCommaBeforeBracket sliced

/-- The video branch's per-scene media generation (route.ts 189-224): the
image and speech calls each carry their own `.catch`, so a failure yields a
`none` medium without failing the scene. -/
def videoScene (env : ProviderEnv) (scene : Json) :
    Except (List Char) (Json × Option (List Char) × Option (List Nat)) :=
  match sceneSlideText scene with
  | .error e => .error e
  | .ok slideText =>
    let img := match env.generateImage ("video slide prompt: ".toList ++
        jsToString ((getField scene ("visual".toList)).getD .null) ++ " | ".toList ++ slideText) with
      | .ok i => some i
      | .error _ => none
    let sceneText := match getField scene ("text".toList) with
      | some (.str s) => s
      | _ => []
    let audio := match env.generateSpeech sceneText with
      | .ok b => some b
      | .error _ => none
    .ok (scene, img, audio)

/-- All-scenes traversal of `videoScene`; the first uncaught throw rejects
the `Promise.all` and propagates. -/
def videoScenes (env : ProviderEnv) :
    List Json → Except (List Char) (List (Json × Option (List Char) × Option (List Nat)))
  | [] => .ok []
  | s :: ss =>
    match videoScene env s with
    | .error e => .error e
    | .ok r =>
      match videoScenes env ss with
      | .error e => .error e
      | .ok rs => .ok (r :: rs)

/-- The body of the `try` block of `POST` (route.ts 15-242).  A `.error`
result models an exception reaching the handler's `catch`. -/
def postBody (env : ProviderEnv) (req : Except (List Char) GenBody) :
    Except (List Char) ApiResponse := do
  let body ← req
  if !(fieldTruthy body.promptField) || !(fieldTruthy body.modeField) then
    return ⟨400, .errorResp badRequestMessage⟩
  let mode := body.modeField.getD []
  let prompt := body.promptField.getD []
  if mode = "infographic".toList then
    let visualPrompt ← env.runGemini ("chat".toList) (infographicPrompt prompt)
    let img ← env.generateImage visualPrompt
    return ⟨200, .imageResp img ("Инфографика сгенерирована".toList)⟩
  else if mode = "audio".toList then
    let scriptRaw ← env.runGemini mode prompt
    let cleaned := jsTrim (stripFenceTokens scriptRaw)
    match jsonParse cleaned with
    | none => return ⟨200, .textResp scriptRaw⟩
    | some scriptData =>
      let dialogue := match getField scriptData ("dialogue".toList) with
        | some (.arr d) => d
        | _ => []
      let wav := assembleAudio env.generateMultiSpeakerSpeech dialogue
      return ⟨200, .audioResp (titleOr scriptData ("Подкаст".toList)) wav ("Подкаст готов.".toList)⟩
  else if mode = "slides".toList then
    let resultRaw ← env.runGemini mode prompt
    let cleaned := jsTrim (stripFenceTokens resultRaw)
    match jsonParse cleaned with
    | none => return ⟨200, .textResp resultRaw⟩
    | some slidesData =>
      match getField slidesData ("slides".toList) with
      | some (.arr ss) =>
        let withVisuals := ss.map (fun s =>
          match slidePrompt s with
          | some p =>
            (match env.generateImage p with
             | .ok img => (s, some img)
             | .error _ => (s, none))
          | none => (s, none))
        return ⟨200, .slidesResp (titleOr slidesData ("Презентация".toList)) withVisuals
          ("Презентация готова.".toList)⟩
      | _ => return ⟨200, .textResp resultRaw⟩
  else if mode = "video".toList then
    let scriptRaw ← env.runGemini mode prompt
    match jsonParse (videoJsonCandidate scriptRaw) with
    | none => return ⟨200, .textResp scriptRaw⟩
    | some scriptData =>
      match getField scriptData ("scenes".toList) with
      | some (.arr ss) =>
        let scenes ← videoScenes env ss
        return ⟨200, .videoResp (titleOr scriptData ("Видеопересказ".toList)) scenes
          ("Видео готово к просмотру.".toList)⟩
      | _ => return ⟨200, .textResp scriptRaw⟩
  else
    let result ← env.runGemini mode prompt
    return ⟨200, .textResp result⟩

/-- `POST` (route.ts 14-248): the `try`/`catch` boundary turns any thrown
error into a JSON `{ error }` response with status 500. -/
def POST (env : ProviderEnv) (req : Except (List Char) GenBody) : ApiResponse :=
  match postBody env req with
  | .ok r => r
  | .error m => ⟨500, .errorResp m⟩

/-- A "plain" markdown text fragment for the fallback scenario: non-empty,
already trimmed, and free of the characters that would trigger a JSON
strategy, bold/heading stripping, or a line break (braces, quotes,
backticks, asterisks, hashes, line terminators). -/
def mdText (t : List Char) : Prop :=
  t ≠ [] ∧ jsTrim t = t ∧
  ∀ ch ∈ t, ch ≠ '\x7b' ∧ ch ≠ '"' ∧ ch ≠ '`' ∧ ch ≠ '*' ∧ ch ≠ '#' ∧
    ch ≠ '\n' ∧ ch ≠ '\r'

instance (t : List Char) : Decidable (mdText t) := by
  unfold mdText
  infer_instance

/-- The question line of the markdown-fallback scenario: `1) <text>`. -/
def mdQuestionLine (qt : List Char) : List Char :=
  '1' :: ')' :: ' ' :: qt

/-- An option line of the markdown-fallback scenario: `<letter>) <text>`. -/
def mdOptionLine (li : Char) (t : List Char) : List Char :=
  li :: ')' :: ' ' :: t

/-- A minimal markdown quiz: a numbered question line followed by four
newline-separated lettered option lines. -/
def mdQuizRaw (qt : List Char) (l1 : Char) (t1 : List Char) (l2 : Char)
    (t2 : List Char) (l3 : Char) (t3 : List Char) (l4 : Char)
    (t4 : List Char) : List Char :=
  mdQuestionLine qt ++ '\n' :: (mdOptionLine l1 t1 ++ '\n' ::
    (mdOptionLine l2 t2 ++ '\n' :: (mdOptionLine l3 t3 ++ '\n' ::
      mdOptionLine l4 t4)))

/-- A synthesis oracle in which every successful buffer of at most 44 bytes
(header-only or shorter) is replaced by a failure; used to state that the
assembler treats such buffers exactly like failed chunks. -/
def censorShort (synth : List Json → SynthOutcome) : List Json → SynthOutcome :=
  fun chunk =>
    match synth chunk with
    | .ok buf => if 44 < buf.length then .ok buf else .error ("short buffer".toList)
    | .error e => .error e

/-! ## Theorems -/

theorem createWavHeader_cons (d sr nc bps : Nat) :
    createWavHeader d sr nc bps =
      [82, 73, 70, 70,
       (36 + d) % 256, (36 + d) / 256 % 256, (36 + d) / 65536 % 256,
       (36 + d) / 16777216 % 256,
       87, 65, 86, 69, 102, 109, 116, 32,
       16, 0, 0, 0, 1, 0,
       nc % 256, nc / 256 % 256,
       sr % 256, sr / 256 % 256, sr / 65536 % 256, sr / 16777216 % 256,
       (sr * nc * bps / 8) % 256, sr * nc * bps / 8 / 256 % 256,
       sr * nc * bps / 8 / 65536 % 256, sr * nc * bps / 8 / 16777216 % 256,
       (nc * bps / 8) % 256, nc * bps / 8 / 256 % 256,
       bps % 256, bps / 256 % 256,
       100, 97, 116, 97,
       d % 256, d / 256 % 256, d / 65536 % 256, d / 16777216 % 256] := by
  rfl

/-- C8: `createWavHeader(dataLength, sampleRate, numChannels, bitsPerSample)`
returns a 44-byte buffer whose little-endian fields encode the overall size
`36 + dataLength` at offset 4, PCM format tag 1, the channel count, the
sample rate, the byte rate `sampleRate × numChannels × bitsPerSample/8`, the
block alignment `numChannels × bitsPerSample/8`, the bits-per-sample value,
and the data length at offset 40. -/
theorem createWavHeader_fields (dataLength sampleRate numChannels bitsPerSample : Nat)
    (hd : 36 + dataLength < 2 ^ 32) (hsr : sampleRate < 2 ^ 32)
    (hnc : numChannels < 2 ^ 16) (hbps : bitsPerSample < 2 ^ 16)
    (hbr : sampleRate * numChannels * bitsPerSample / 8 < 2 ^ 32)
    (hba : numChannels * bitsPerSample / 8 < 2 ^ 16) :
    (createWavHeader dataLength sampleRate numChannels bitsPerSample).length = 44 ∧
    readLE32 (createWavHeader dataLength sampleRate numChannels bitsPerSample) 4 =
      36 + dataLength ∧
    readLE16 (createWavHeader dataLength sampleRate numChannels bitsPerSample) 20 = 1 ∧
    readLE16 (createWavHeader dataLength sampleRate numChannels bitsPerSample) 22 =
      numChannels ∧
    readLE32 (createWavHeader dataLength sampleRate numChannels bitsPerSample) 24 =
      sampleRate ∧
    readLE32 (createWavHeader dataLength sampleRate numChannels bitsPerSample) 28 =
      sampleRate * numChannels * bitsPerSample / 8 ∧
    readLE16 (createWavHeader dataLength sampleRate numChannels bitsPerSample) 32 =
      numChannels * bitsPerSample / 8 ∧
    readLE16 (createWavHeader dataLength sampleRate numChannels bitsPerSample) 34 =
      bitsPerSample ∧
    readLE32 (createWavHeader dataLength sampleRate numChannels bitsPerSample) 40 =
      dataLength := by
  rw [createWavHeader_cons]
  refine ⟨rfl, ?_, rfl, ?_, ?_, ?_, ?_, ?_, ?_⟩
  · show (36 + dataLength) % 256 + 256 * ((36 + dataLength) / 256 % 256) +
      65536 * ((36 + dataLength) / 65536 % 256) +
      16777216 * ((36 + dataLength) / 16777216 % 256) = 36 + dataLength
    omega
  · show numChannels % 256 + 256 * (numChannels / 256 % 256) = numChannels
    omega
  · show sampleRate % 256 + 256 * (sampleRate / 256 % 256) +
      65536 * (sampleRate / 65536 % 256) + 16777216 * (sampleRate / 16777216 % 256) =
      sampleRate
    omega
  · show (sampleRate * numChannels * bitsPerSample / 8) % 256 +
      256 * (sampleRate * numChannels * bitsPerSample / 8 / 256 % 256) +
      65536 * (sampleRate * numChannels * bitsPerSample / 8 / 65536 % 256) +
      16777216 * (sampleRate * numChannels * bitsPerSample / 8 / 16777216 % 256) =
      sampleRate * numChannels * bitsPerSample / 8
    omega
  · show (numChannels * bitsPerSample / 8) % 256 +
      256 * (numChannels * bitsPerSample / 8 / 256 % 256) =
      numChannels * bitsPerSample / 8
    omega
  · show bitsPerSample % 256 + 256 * (bitsPerSample / 256 % 256) = bitsPerSample
    omega
  · show dataLength % 256 + 256 * (dataLength / 256 % 256) +
      65536 * (dataLength / 65536 % 256) + 16777216 * (dataLength / 16777216 % 256) =
      dataLength
    omega

theorem createWavHeader_fields_witness :
    readLE32 (createWavHeader 1000 24000 1 16) 4 = 1036 ∧
    readLE16 (createWavHeader 1000 24000 1 16) 20 = 1 ∧
    readLE32 (createWavHeader 1000 24000 1 16) 28 = 48000 ∧
    readLE32 (createWavHeader 1000 24000 1 16) 40 = 1000 := by
  have h := createWavHeader_fields 1000 24000 1 16 (by decide) (by decide) (by decide)
    (by decide) (by decide) (by decide)
  exact ⟨h.2.1, h.2.2.1, h.2.2.2.2.2.1, h.2.2.2.2.2.2.2.2⟩

/-- C10: a synthesized chunk whose buffer is 44 bytes or shorter is treated
exactly like a failed chunk: replacing every such success by a failure
changes neither the collected PCM chunks nor the assembled artifact, so a
header-only buffer contributes no sample bytes and no declared length. -/
theorem assembleAudio_short_buffer_unusable (synth : List Json → SynthOutcome)
    (dialogue : List Json) :
    audioPcms synth dialogue = audioPcms (censorShort synth) dialogue ∧
    assembleAudio synth dialogue = assembleAudio (censorShort synth) dialogue := by
  have hp : audioPcms synth dialogue = audioPcms (censorShort synth) dialogue := by
    unfold audioPcms
    refine List.filterMap_congr (fun chunk _ => ?_)
    unfold censorShort
    cases hsy : synth chunk with
    | ok buf =>
      by_cases h44 : 44 < buf.length
      · simp [h44]
      · simp [h44]
    | error e => simp
  exact ⟨hp, by unfold assembleAudio; rw [hp]⟩

theorem chunksOfGo_flatten (n : Nat) (hn : 0 < n) :
    ∀ (f : Nat) (l : List Json), l.length ≤ f → (chunksOfGo n f l).flatten = l := by
  intro f
  induction f with
  | zero =>
    intro l hl
    have : l = [] := List.eq_nil_of_length_eq_zero (Nat.le_zero.mp hl)
    simp [this, chunksOfGo]
  | succ f ih =>
    intro l hl
    cases l with
    | nil => simp [chunksOfGo]
    | cons a as =>
      have hstep : (chunksOfGo n (f + 1) (a :: as)) =
          (a :: as).take n :: chunksOfGo n f ((a :: as).drop n) := rfl
      rw [hstep, List.flatten_cons, ih _ (by
        simp only [List.length_drop, List.length_cons]
        simp only [List.length_cons] at hl
        omega)]
      exact List.take_append_drop n (a :: as)

theorem chunksOfGo_length_le (n : Nat) :
    ∀ (f : Nat) (l : List Json), ∀ c ∈ chunksOfGo n f l, c.length ≤ n := by
  intro f
  induction f with
  | zero => intro l c hc; simp [chunksOfGo] at hc
  | succ f ih =>
    intro l c hc
    cases l with
    | nil => simp [chunksOfGo] at hc
    | cons a as =>
      have hstep : (chunksOfGo n (f + 1) (a :: as)) =
          (a :: as).take n :: chunksOfGo n f ((a :: as).drop n) := rfl
      rw [hstep] at hc
      rcases List.mem_cons.mp hc with rfl | hmem
      · exact List.length_take_le n _
      · exact ih _ _ hmem

/-- C2: the audio branch partitions the dialogue into consecutive chunks of
at most 30 lines; the chunks that synthesize successfully each contribute
their buffer minus the 44-byte header, failed chunks are skipped without
aborting the rest, and the final artifact is a fresh 44-byte header whose
data-length field at offset 40 equals the total PCM length, followed by the
PCM chunks concatenated in order (`44 + sum Li` bytes in all). -/
theorem audio_assembly_spec (synth : List Json → SynthOutcome) (dialogue : List Json)
    (pcms : List (List Nat))
    (hpcms : pcms = (chunksOf CHUNK_SIZE dialogue).filterMap (fun c =>
      match synth c with
      | .ok buf => some (buf.drop 44)
      | .error _ => none))
    (hlong : ∀ chunk buf, synth chunk = .ok buf → 44 < buf.length)
    (hfit : (pcms.map List.length).sum < 2 ^ 32) :
    (chunksOf CHUNK_SIZE dialogue).flatten = dialogue ∧
    (∀ c ∈ chunksOf CHUNK_SIZE dialogue, c.length ≤ 30) ∧
    audioPcms synth dialogue = pcms ∧
    (assembleAudio synth dialogue).length = 44 + (pcms.map List.length).sum ∧
    (assembleAudio synth dialogue).drop 44 = pcms.flatten ∧
    readLE32 (assembleAudio synth dialogue) 40 = (pcms.map List.length).sum := by
  have hpc : audioPcms synth dialogue = pcms := by
    rw [hpcms]
    unfold audioPcms
    refine List.filterMap_congr (fun chunk _ => ?_)
    cases hsy : synth chunk with
    | ok buf => simp [hlong chunk buf hsy]
    | error e => simp
  have hflat : (chunksOf CHUNK_SIZE dialogue).flatten = dialogue :=
    chunksOfGo_flatten CHUNK_SIZE (by decide) _ _ (Nat.le_refl _)
  have hlen : ∀ c ∈ chunksOf CHUNK_SIZE dialogue, c.length ≤ 30 :=
    fun c hc => chunksOfGo_length_le CHUNK_SIZE _ _ c hc
  have hhdrlen : (createWavHeader (pcms.map List.length).sum).length = 44 := by
    rw [createWavHeader_cons]; rfl
  have hasm : assembleAudio synth dialogue =
      createWavHeader (pcms.map List.length).sum ++ pcms.flatten := by
    unfold assembleAudio
    rw [hpc]
  refine ⟨hflat, hlen, hpc, ?_, ?_, ?_⟩
  · rw [hasm, List.length_append, hhdrlen, List.length_flatten]
  · rw [hasm]
    calc (createWavHeader (pcms.map List.length).sum ++ pcms.flatten).drop 44
        = (createWavHeader (pcms.map List.length).sum ++ pcms.flatten).drop
            (createWavHeader (pcms.map List.length).sum).length := by rw [hhdrlen]
      _ = pcms.flatten := List.drop_left _ _
  · rw [hasm]
    have h40 : ∀ i, i < 44 →
        (createWavHeader (pcms.map List.length).sum ++ pcms.flatten).getD i 0 =
        (createWavHeader (pcms.map List.length).sum).getD i 0 := by
      intro i hi
      exact List.getD_append _ _ _ i (by rw [hhdrlen]; exact hi)
    unfold readLE32
    rw [h40 40 (by decide), h40 41 (by decide), h40 42 (by decide), h40 43 (by decide)]
    have e40 : readLE32 (createWavHeader (pcms.map List.length).sum) 40 =
        (pcms.map List.length).sum % 256 +
        256 * ((pcms.map List.length).sum / 256 % 256) +
        65536 * ((pcms.map List.length).sum / 65536 % 256) +
        16777216 * ((pcms.map List.length).sum / 16777216 % 256) := by
      rw [createWavHeader_cons]
      unfold readLE32
      rfl
    unfold readLE32 at e40
    rw [e40]
    omega

theorem audio_assembly_spec_witness :
    (assembleAudio (fun _ => Except.ok (List.replicate 50 7))
      (List.replicate 31 Json.null)).length = 56 ∧
    readLE32 (assembleAudio (fun _ => Except.ok (List.replicate 50 7))
      (List.replicate 31 Json.null)) 40 = 12 := by
  have h := audio_assembly_spec (fun _ => (Except.ok (List.replicate 50 7) : SynthOutcome))
    (List.replicate 31 Json.null)
    ((chunksOf CHUNK_SIZE (List.replicate 31 Json.null)).filterMap (fun c =>
      match (fun _ : List Json => (Except.ok (List.replicate 50 7) : SynthOutcome)) c with
      | .ok buf => some (buf.drop 44)
      | .error _ => none))
    rfl
    (fun chunk buf hb => by
      have h2 : List.replicate 50 7 = buf := Except.ok.inj hb
      rw [← h2]; decide)
    (by decide)
  refine ⟨h.2.2.2.1.trans (by decide), h.2.2.2.2.2.trans (by decide)⟩

theorem parseQuestionsArray_ne_nil {v : Json} {qs : List QuizQuestion}
    (h : parseQuestionsArray v = some qs) : qs ≠ [] := by
  unfold parseQuestionsArray at h
  split at h
  case _ qs' heq =>
    by_cases hq : ((qs'.filter questionValid).map mkQuizQuestion).isEmpty
    · simp [hq] at h
    · simp only [hq, if_false, Bool.false_eq_true, Option.some.injEq] at h
      subst h
      simp only [ne_eq, List.isEmpty_iff] at hq
      exact hq
  case _ => cases h

theorem tryParseCandidates_ne_nil :
    ∀ {cs : List (List Char)} {qs : List QuizQuestion},
      tryParseCandidates cs = some qs → qs ≠ [] := by
  intro cs
  induction cs with
  | nil => intro qs h; cases h
  | cons c rest ih =>
    intro qs h
    unfold tryParseCandidates at h
    split at h
    case _ v heq =>
      split at h
      case _ quiz heq2 =>
        cases h
        exact parseQuestionsArray_ne_nil heq2
      case _ => exact ih h
    case _ => exact ih h

/-- C4: `extractQuiz` is total: for every input it returns either a
non-empty recovered question list together with the fixed ready message, or
`{ message := raw }` with no quiz payload when no strategy recovered
anything. -/
theorem extractQuiz_total_or_plain (raw : List Char) :
    (∃ qs, qs ≠ [] ∧ extractQuiz raw = { quiz := some qs, message := readyMessage }) ∨
    extractQuiz raw = { quiz := none, message := raw } := by
  have fallback : ∀ res : ParsedQuiz,
      (res = if (markdownQuiz raw).isEmpty then { quiz := none, message := raw }
        else { quiz := some (markdownQuiz raw), message := readyMessage }) →
      (∃ qs, qs ≠ [] ∧ res = { quiz := some qs, message := readyMessage }) ∨
      res = { quiz := none, message := raw } := by
    intro res hres
    by_cases hmd : (markdownQuiz raw).isEmpty
    · right; rw [hres]; simp [hmd]
    · left
      refine ⟨markdownQuiz raw, ?_, by rw [hres]; simp [hmd]⟩
      simp only [ne_eq, List.isEmpty_iff] at hmd
      exact hmd
  unfold extractQuiz
  split <;> split <;> dsimp only [List.cons_append, List.nil_append]
  · rename_i x1 c hcf x2 frag hqf
    cases htp : tryParseCandidates
        [c, cleanJson c, wrapQuestions frag, cleanJson (wrapQuestions frag)] with
    | some quiz => exact .inl ⟨quiz, tryParseCandidates_ne_nil htp, rfl⟩
    | none => exact fallback _ rfl
  · rename_i x1 c hcf x2 hqf
    cases htp : tryParseCandidates [c, cleanJson c] with
    | some quiz => exact .inl ⟨quiz, tryParseCandidates_ne_nil htp, rfl⟩
    | none => exact fallback _ rfl
  · rename_i x1 hcf x2 frag hqf
    cases htp : tryParseCandidates
        [braceSlice raw, cleanJson (braceSlice raw), wrapQuestions frag,
         cleanJson (wrapQuestions frag)] with
    | some quiz => exact .inl ⟨quiz, tryParseCandidates_ne_nil htp, rfl⟩
    | none => exact fallback _ rfl
  · rename_i x1 hcf x2 hqf
    cases htp : tryParseCandidates [braceSlice raw, cleanJson (braceSlice raw)] with
    | some quiz => exact .inl ⟨quiz, tryParseCandidates_ne_nil htp, rfl⟩
    | none => exact fallback _ rfl

theorem postBody_ok_shape (env : ProviderEnv) (req : Except (List Char) GenBody)
    (r : ApiResponse) (h : postBody env req = .ok r) :
    r = ⟨400, .errorResp badRequestMessage⟩ ∨
    (r.status = 200 ∧ ∀ m, r.payload ≠ .errorResp m) := by
  unfold postBody at h
  cases req with
  | error e => cases h
  | ok body =>
    simp only [bind, Except.bind, pure, Except.pure] at h
    by_cases hbad : (!fieldTruthy body.promptField || !fieldTruthy body.modeField) = true
    · rw [if_pos hbad] at h
      cases h
      exact .inl rfl
    · rw [if_neg hbad] at h
      by_cases hinf : body.modeField.getD [] = "infographic".toList
      · rw [if_pos hinf] at h
        cases hg1 : env.runGemini ("chat".toList) (infographicPrompt (body.promptField.getD [])) with
        | error e => rw [hg1] at h; dsimp only at h; cases h
        | ok vp =>
          rw [hg1] at h
          dsimp only at h
          cases hg2 : env.generateImage vp with
          | error e => rw [hg2] at h; dsimp only at h; cases h
          | ok img =>
            rw [hg2] at h
            dsimp only at h
            cases h
            exact .inr ⟨rfl, fun m hm => by cases hm⟩
      · rw [if_neg hinf] at h
        by_cases haud : body.modeField.getD [] = "audio".toList
        · rw [if_pos haud] at h
          cases hg : env.runGemini (body.modeField.getD []) (body.promptField.getD []) with
          | error e => rw [hg] at h; dsimp only at h; cases h
          | ok v =>
            rw [hg] at h
            dsimp only at h
            split at h
            · cases h
              exact .inr ⟨rfl, fun m hm => by cases hm⟩
            · cases h
              exact .inr ⟨rfl, fun m hm => by cases hm⟩
        · rw [if_neg haud] at h
          by_cases hsl : body.modeField.getD [] = "slides".toList
          · rw [if_pos hsl] at h
            cases hg : env.runGemini (body.modeField.getD []) (body.promptField.getD []) with
            | error e => rw [hg] at h; dsimp only at h; cases h
            | ok v =>
              rw [hg] at h
              dsimp only at h
              split at h
              · cases h
                exact .inr ⟨rfl, fun m hm => by cases hm⟩
              · split at h
                all_goals
                  cases h
                  exact .inr ⟨rfl, fun m hm => by cases hm⟩
          · rw [if_neg hsl] at h
            by_cases hvid : body.modeField.getD [] = "video".toList
            · rw [if_pos hvid] at h
              cases hg : env.runGemini (body.modeField.getD []) (body.promptField.getD []) with
              | error e => rw [hg] at h; dsimp only at h; cases h
              | ok v =>
                rw [hg] at h
                dsimp only at h
                split at h
                · cases h
                  exact .inr ⟨rfl, fun m hm => by cases hm⟩
                · split at h
                  · split at h
                    · cases h
                    · cases h
                      exact .inr ⟨rfl, fun m hm => by cases hm⟩
                  all_goals
                    cases h
                    exact .inr ⟨rfl, fun m hm => by cases hm⟩
            · rw [if_neg hvid] at h
              cases hg : env.runGemini (body.modeField.getD []) (body.promptField.getD []) with
              | error e => rw [hg] at h; dsimp only at h; cases h
              | ok v =>
                rw [hg] at h
                dsimp only at h
                cases h
                exact .inr ⟨rfl, fun m hm => by cases hm⟩

/-- C9: the generate handler always returns a JSON response rather than
propagating an exception: a parsed body missing `mode` or `prompt` (absent
or empty) yields the fixed `{ error }` with status 400; any error thrown
during processing — including a request body that fails to parse — is caught
and returned as `{ error: message }` with status 500; every other outcome is
a 200 response that is not an error payload. -/
theorem POST_never_throws (env : ProviderEnv) (req : Except (List Char) GenBody) :
    (POST env req = ⟨400, .errorResp badRequestMessage⟩ ∨
     (∃ m, POST env req = ⟨500, .errorResp m⟩) ∨
     (∃ p, POST env req = ⟨200, p⟩ ∧ ∀ m, p ≠ .errorResp m)) ∧
    (∀ e, req = .error e → POST env req = ⟨500, .errorResp e⟩) ∧
    (∀ b, req = .ok b →
      (!fieldTruthy b.promptField || !fieldTruthy b.modeField) = true →
      POST env req = ⟨400, .errorResp badRequestMessage⟩) := by
  refine ⟨?_, ?_, ?_⟩
  · cases hpb : postBody env req with
    | error m =>
      exact .inr (.inl ⟨m, by unfold POST; rw [hpb]⟩)
    | ok r =>
      rcases postBody_ok_shape env req r hpb with h400 | ⟨hst, hpl⟩
      · left
        unfold POST
        rw [hpb, h400]
      · right; right
        refine ⟨r.payload, ?_, hpl⟩
        unfold POST
        rw [hpb]
        cases r
        simp only at hst
        rw [hst]
  · intro e he
    subst he
    rfl
  · intro b hb hbad
    subst hb
    unfold POST postBody
    simp only [bind, Except.bind, pure, Except.pure]
    rw [if_pos hbad]

theorem POST_never_throws_witness :
    POST ⟨fun _ _ => .error ("GOOGLE_API_KEY не задан".toList),
          fun _ => .error [], fun _ => .error [], fun _ => .error []⟩
      (.ok ⟨some ("quiz".toList), none⟩) =
      ⟨400, .errorResp badRequestMessage⟩ :=
  (POST_never_throws _ _).2.2 ⟨some ("quiz".toList), none⟩ rfl (by decide)

/-- C7 (amended): for infographic, slides and flashcards JSON (after
stripping code fences), a *truthy* `title` is required for infographics and
slides (the source tests truthiness, not string-ness, and stringifies the
value); entries missing their required string fields are dropped while valid
entries are preserved in input order; slides keep only string bullets and
are dropped when no bullet survives; the flashcards `title` defaults to the
fixed placeholder when absent or not a string; and a failed parse, a falsy
title, or zero surviving entries yields `none` (the caller's text fallback). -/
theorem structured_parsers_drop_invalid :
    (∀ raw, jsonParse (jsTrim (stripFenceTokens raw)) = none →
      parseInfographic raw = none ∧ parseSlides raw = none ∧
      parseFlashcards raw = none) ∧
    (∀ raw v, jsonParse (jsTrim (stripFenceTokens raw)) = some v →
      titleTruthy v = false → parseInfographic raw = none ∧ parseSlides raw = none) ∧
    (∀ raw v bs, jsonParse (jsTrim (stripFenceTokens raw)) = some v →
      titleTruthy v = true → getField v ("blocks".toList) = some (.arr bs) →
      (bs.filter blockValid = [] → parseInfographic raw = none) ∧
      (bs.filter blockValid ≠ [] →
        parseInfographic raw = some
          { title := jsToString ((getField v ("title".toList)).getD .null)
            blocks := (bs.filter blockValid).map mkInfoBlock
            takeaway := match getField v ("takeaway".toList) with
              | some (.str s) => some s
              | _ => none })) ∧
    (∀ raw v ss, jsonParse (jsTrim (stripFenceTokens raw)) = some v →
      titleTruthy v = true → getField v ("slides".toList) = some (.arr ss) →
      ((((ss.filter slideValid).map mkSlideSpec).filter
          (fun s => !s.bullets.isEmpty)) = [] → parseSlides raw = none) ∧
      ((((ss.filter slideValid).map mkSlideSpec).filter
          (fun s => !s.bullets.isEmpty)) ≠ [] →
        parseSlides raw = some
          { title := jsToString ((getField v ("title".toList)).getD .null)
            slides := ((ss.filter slideValid).map mkSlideSpec).filter
              (fun s => !s.bullets.isEmpty) })) ∧
    (∀ raw v cs, jsonParse (jsTrim (stripFenceTokens raw)) = some v →
      getField v ("cards".toList) = some (.arr cs) →
      (cs.filter cardValid = [] → parseFlashcards raw = none) ∧
      (cs.filter cardValid ≠ [] →
        parseFlashcards raw = some
          { title := match getField v ("title".toList) with
              | some (.str s) => s
              | _ => "Карточки".toList
            cards := (cs.filter cardValid).map mkFlashcard })) := by
  refine ⟨?_, ?_, ?_, ?_, ?_⟩
  · intro raw hp
    exact ⟨by simp [parseInfographic, hp], by simp [parseSlides, hp],
      by simp [parseFlashcards, hp]⟩
  · intro raw v hp htt
    exact ⟨by simp [parseInfographic, hp, htt], by simp [parseSlides, hp, htt]⟩
  · intro raw v bs hp htt hb
    constructor
    · intro hempty
      simp only [parseInfographic]
      rw [hp]
      dsimp only
      rw [if_pos htt, hb]
      dsimp only
      rw [if_pos (show ((bs.filter blockValid).map mkInfoBlock).isEmpty = true by
        simp [hempty])]
    · intro hne
      simp only [parseInfographic]
      rw [hp]
      dsimp only
      rw [if_pos htt, hb]
      dsimp only
      rw [if_neg (show ¬ ((bs.filter blockValid).map mkInfoBlock).isEmpty = true from
        fun hcond => hne (List.map_eq_nil_iff.mp (List.isEmpty_iff.mp hcond)))]
  · intro raw v ss hp htt hs
    constructor
    · intro hempty
      simp only [parseSlides]
      rw [hp]
      dsimp only
      rw [if_pos htt, hs]
      dsimp only
      rw [if_pos (show (((ss.filter slideValid).map mkSlideSpec).filter
          (fun s => !s.bullets.isEmpty)).isEmpty = true by simp [List.isEmpty_iff, hempty])]
    · intro hne
      simp only [parseSlides]
      rw [hp]
      dsimp only
      rw [if_pos htt, hs]
      dsimp only
      rw [if_neg (show ¬ (((ss.filter slideValid).map mkSlideSpec).filter
          (fun s => !s.bullets.isEmpty)).isEmpty = true from
        fun hcond => hne (List.isEmpty_iff.mp hcond))]
  · intro raw v cs hp hc
    constructor
    · intro hempty
      simp only [parseFlashcards]
      rw [hp]
      dsimp only
      rw [hc]
      dsimp only
      rw [if_pos (show ((cs.filter cardValid).map mkFlashcard).isEmpty = true by
        simp [hempty])]
    · intro hne
      simp only [parseFlashcards]
      rw [hp]
      dsimp only
      rw [hc]
      dsimp only
      rw [if_neg (show ¬ ((cs.filter cardValid).map mkFlashcard).isEmpty = true from
        fun hcond => hne (List.map_eq_nil_iff.mp (List.isEmpty_iff.mp hcond)))]

theorem structured_parsers_drop_invalid_witness :
    parseInfographic ("нет данных".toList) = none ∧
    parseSlides ("нет данных".toList) = none ∧
    parseFlashcards ("нет данных".toList) = none :=
  structured_parsers_drop_invalid.1 ("нет данных".toList) rfl

/-- C7 counterexample: the claim requires a *string* `title` for an
infographic, but the source only tests truthiness, so a numeric title `123`
is accepted (and stringified) instead of being rejected. -/
theorem parseInfographic_nonstring_title_counterexample :
    parseInfographic
      ("\x7b\"title\":123,\"blocks\":[\x7b\"title\":\"a\",\"content\":\"b\"\x7d]\x7d".toList) =
      some { title := "123".toList
             blocks := [{ title := "a".toList, content := "b".toList }]
             takeaway := none } := by
  rfl

theorem filterMap_asStr_length (os : List Json)
    (h : ∀ o ∈ os, (match o with | Json.str _ => true | _ => false) = true) :
    (os.filterMap asStr).length = os.length := by
  induction os with
  | nil => rfl
  | cons o rest ih =>
    have ho := h o (List.mem_cons_self o rest)
    cases o with
    | str s =>
      simp only [List.filterMap_cons, asStr, List.length_cons]
      rw [ih (fun x hx => h x (List.mem_cons_of_mem _ hx))]
    | null => simp at ho
    | bool b => simp at ho
    | num n => simp at ho
    | arr xs => simp at ho
    | obj ms => simp at ho

theorem mkQuizQuestion_options4 (qj : Json) (hv : questionValid qj = true) :
    (mkQuizQuestion qj).options.length = 4 := by
  unfold questionValid at hv
  obtain ⟨hq, hopt⟩ := Bool.and_eq_true_iff.mp hv
  unfold mkQuizQuestion
  split at hopt
  case _ os heq =>
    obtain ⟨hlen, hall⟩ := Bool.and_eq_true_iff.mp hopt
    rw [filterMap_asStr_length os (List.all_eq_true.mp hall)]
    exact of_decide_eq_true hlen
  case _ => cases hopt

theorem parseQuestionsArray_options4 {v : Json} {qs : List QuizQuestion}
    (h : parseQuestionsArray v = some qs) : ∀ q ∈ qs, q.options.length = 4 := by
  unfold parseQuestionsArray at h
  split at h
  case _ qjs heq =>
    by_cases he : ((qjs.filter questionValid).map mkQuizQuestion).isEmpty
    · simp [he] at h
    · simp only [he, if_false, Bool.false_eq_true, Option.some.injEq] at h
      subst h
      intro q hq
      obtain ⟨qj, hqj, rfl⟩ := List.mem_map.mp hq
      exact mkQuizQuestion_options4 qj (List.mem_filter.mp hqj).2
  case _ => cases h

theorem tryParseCandidates_options4 :
    ∀ {cs : List (List Char)} {qs : List QuizQuestion},
      tryParseCandidates cs = some qs → ∀ q ∈ qs, q.options.length = 4 := by
  intro cs
  induction cs with
  | nil => intro qs h; cases h
  | cons c rest ih =>
    intro qs h
    unfold tryParseCandidates at h
    split at h
    case _ v heq =>
      split at h
      case _ quiz heq2 =>
        cases h
        exact parseQuestionsArray_options4 heq2
      case _ => exact ih h
    case _ => exact ih h

theorem mdStep_preserves (st : List QuizQuestion × Option QuizQuestion) (line : List Char)
    (hfin : ∀ q ∈ st.1, q.options.length = 4 ∧ ∃ k : Nat, q.answer = .num (k : Int) ∧ k < 4)
    (hcur : ∀ cur, st.2 = some cur → cur.options.length ≤ 4 ∧
      ∃ k : Nat, cur.answer = .num (k : Int) ∧ (k = 0 ∨ k < cur.options.length)) :
    (∀ q ∈ (mdStep st line).1, q.options.length = 4 ∧
      ∃ k : Nat, q.answer = .num (k : Int) ∧ k < 4) ∧
    (∀ cur, (mdStep st line).2 = some cur → cur.options.length ≤ 4 ∧
      ∃ k : Nat, cur.answer = .num (k : Int) ∧ (k = 0 ∨ k < cur.options.length)) := by
  obtain ⟨fin0, ocur⟩ := st
  dsimp only at hfin hcur ⊢
  unfold mdStep
  cases hqm : questionLineMatch line with
  | some qt =>
    dsimp only
    constructor
    · intro q hq2
      cases ocur with
      | none => exact hfin q hq2
      | some cur =>
        dsimp only at hq2
        by_cases h4 : cur.options.length = 4
        · rw [if_pos h4] at hq2
          rcases List.mem_append.mp hq2 with hmem | hmem
          · exact hfin q hmem
          · obtain rfl : q = cur := List.mem_singleton.mp hmem
            obtain ⟨hlen, k, hk, hkr⟩ := hcur q rfl
            refine ⟨h4, k, hk, ?_⟩
            omega
        · rw [if_neg h4] at hq2
          exact hfin q hq2
    · intro c hc
      cases hc
      exact ⟨by simp, 0, rfl, .inl rfl⟩
  | none =>
    dsimp only
    cases ocur with
    | none => exact ⟨hfin, hcur⟩
    | some cur =>
      cases hom : optionLineMatch line with
      | none => exact ⟨hfin, hcur⟩
      | some cap =>
        dsimp only
        by_cases h4 : cur.options.length < 4
        · rw [if_pos h4]
          obtain ⟨hlen, k, hk, hkr⟩ := hcur cur rfl
          refine ⟨hfin, ?_⟩
          intro c hc
          cases hc
          constructor
          · simp only [List.length_append, List.length_cons, List.length_nil]
            omega
          · by_cases hmk : markerTest (jsTrim cap)
            · refine ⟨cur.options.length, by simp [hmk], ?_⟩
              right
              simp only [List.length_append, List.length_cons, List.length_nil]
              omega
            · refine ⟨k, by simp [hmk, hk], ?_⟩
              rcases hkr with rfl | hlt
              · exact .inl rfl
              · right
                simp only [List.length_append, List.length_cons, List.length_nil]
                omega
        · rw [if_neg h4]
          exact ⟨hfin, hcur⟩

theorem mdFold_invariant (lines : List (List Char)) :
    ∀ (st : List QuizQuestion × Option QuizQuestion),
    (∀ q ∈ st.1, q.options.length = 4 ∧ ∃ k : Nat, q.answer = .num (k : Int) ∧ k < 4) →
    (∀ cur, st.2 = some cur → cur.options.length ≤ 4 ∧
      ∃ k : Nat, cur.answer = .num (k : Int) ∧ (k = 0 ∨ k < cur.options.length)) →
    (∀ q ∈ (lines.foldl mdStep st).1, q.options.length = 4 ∧
      ∃ k : Nat, q.answer = .num (k : Int) ∧ k < 4) ∧
    (∀ cur, (lines.foldl mdStep st).2 = some cur → cur.options.length ≤ 4 ∧
      ∃ k : Nat, cur.answer = .num (k : Int) ∧ (k = 0 ∨ k < cur.options.length)) := by
  induction lines with
  | nil => intro st hfin hcur; exact ⟨hfin, hcur⟩
  | cons line rest ih =>
    intro st hfin hcur
    have hstep := mdStep_preserves st line hfin hcur
    exact ih (mdStep st line) hstep.1 hstep.2

theorem markdownQuiz_mem (raw : List Char) (q : QuizQuestion) (hq : q ∈ markdownQuiz raw) :
    q.options.length = 4 ∧ ∃ k : Nat, q.answer = .num (k : Int) ∧ k < 4 := by
  unfold markdownQuiz at hq
  have hinv := mdFold_invariant (cleanedLines raw) ([], none)
    (by intro q hq2; cases hq2) (by intro cur hc; cases hc)
  dsimp only at hq
  cases hc2 : ((cleanedLines raw).foldl mdStep ([], none)).2 with
  | none =>
    rw [hc2] at hq
    exact hinv.1 q hq
  | some cur =>
    rw [hc2] at hq
    dsimp only at hq
    by_cases h4 : cur.options.length = 4
    · rw [if_pos h4] at hq
      rcases List.mem_append.mp hq with hmem | hmem
      · exact hinv.1 q hmem
      · obtain rfl : q = cur := List.mem_singleton.mp hmem
        obtain ⟨hlen, k, hk, hkr⟩ := hinv.2 q hc2
        refine ⟨h4, k, hk, ?_⟩
        rcases hkr with rfl | hlt
        · omega
        · omega
    · rw [if_neg h4] at hq
      exact hinv.1 q hq

theorem extractQuiz_quiz_source (raw : List Char) (qs : List QuizQuestion)
    (h : (extractQuiz raw).quiz = some qs) :
    (∃ cs, tryParseCandidates cs = some qs) ∨ qs = markdownQuiz raw := by
  unfold extractQuiz at h
  split at h <;> split at h
  all_goals try dsimp only at h
  all_goals try split at h
  all_goals try split at h
  all_goals try dsimp only at h
  all_goals
    first
    | (cases h
       done)
    | (cases h
       exact .inr rfl)
    | (rename_i htp
       cases h
       exact .inl ⟨_, htp⟩)

/-- C3 (amended): every question returned by `extractQuiz` — through any
JSON strategy or the markdown fallback — has exactly 4 options, and every
question produced by the markdown fallback has an answer index in `0..3`;
a JSON-recovered question instead carries whatever number the `answer`
coercion produced, which need not lie in `0..3` (see the counterexample). -/
theorem extractQuiz_options_invariant :
    (∀ raw qs, (extractQuiz raw).quiz = some qs → ∀ q ∈ qs, q.options.length = 4) ∧
    (∀ raw q, q ∈ markdownQuiz raw →
      ∃ k : Nat, q.answer = .num (k : Int) ∧ k < 4) := by
  constructor
  · intro raw qs h q hq
    rcases extractQuiz_quiz_source raw qs h with ⟨cs, htp⟩ | rfl
    · exact tryParseCandidates_options4 htp q hq
    · exact (markdownQuiz_mem raw q hq).1
  · intro raw q hq
    exact (markdownQuiz_mem raw q hq).2

theorem extractQuiz_options_invariant_witness :
    ∃ k : Nat,
      ({ question := "Сколько будет 2+2?".toList
         options := ["три".toList, "четыре (верно)".toList, "пять".toList, "шесть".toList]
         answer := .num 1 } : QuizQuestion).answer = .num (k : Int) ∧ k < 4 :=
  extractQuiz_options_invariant.2
    ("1) Сколько будет 2+2?\nA) три\nB) четыре (верно)\nC) пять\nD) шесть".toList)
    _ (by rw [show markdownQuiz
      ("1) Сколько будет 2+2?\nA) три\nB) четыре (верно)\nC) пять\nD) шесть".toList) =
      [{ question := "Сколько будет 2+2?".toList
         options := ["три".toList, "четыре (верно)".toList, "пять".toList, "шесть".toList]
         answer := .num 1 }] from rfl]; exact List.mem_singleton.mpr rfl)

/-- C3 counterexample: a quiz recovered from JSON keeps an out-of-range
`answer` (here 7), so `answer` is not always an index into the 4 options. -/
theorem extractQuiz_answer_range_counterexample :
    (extractQuiz
      ("\x7b\"questions\":[\x7b\"question\":\"q\",\"options\":[\"a\",\"b\",\"c\",\"d\"],\"answer\":7\x7d]\x7d".toList)).quiz =
      some [{ question := "q".toList
              options := ["a".toList, "b".toList, "c".toList, "d".toList]
              answer := .num 7 }] ∧
    (∀ k : Nat, k < 4 → JsNum.num 7 ≠ JsNum.num (k : Int)) := by
  constructor
  · rfl
  · decide

theorem charOfNat_toNat {n : Nat} (h : n.isValidChar) : (Char.ofNat n).toNat = n := by
  unfold Char.ofNat
  rw [dif_pos h]
  rfl

theorem lowerChar_backtick {c : Char} (h : lowerChar c = '`') : c = '`' := by
  unfold lowerChar at h
  split_ifs at h with h1 h2 h3
  · exfalso
    obtain ⟨ha, hz⟩ := Bool.and_eq_true_iff.mp h1
    rw [decide_eq_true_eq, Char.le_def] at ha hz
    have hv : (c.toNat + 32).isValidChar := by
      left
      change c.toNat ≤ 90 at hz
      omega
    have ht := charOfNat_toNat hv
    rw [h] at ht
    change (65 : Nat) ≤ c.toNat at ha
    change c.toNat ≤ 90 at hz
    simp only [show ('`').toNat = 96 from rfl] at ht
    omega
  · exfalso
    obtain ⟨ha, hz⟩ := Bool.and_eq_true_iff.mp h2
    rw [decide_eq_true_eq] at ha hz
    have hv : (c.toNat + 0x20).isValidChar := by left; omega
    have ht := charOfNat_toNat hv
    rw [h] at ht
    simp only [show ('`').toNat = 96 from rfl] at ht
    omega
  · exfalso
    have ht : ('`').toNat = 0x451 := by
      rw [← h]
      exact charOfNat_toNat (by left; omega)
    simp at ht
  · exact h

theorem prefixCI_backtick_head_false {c : Char} (hc : c ≠ '`') (ns cs : List Char) :
    prefixCI ('`' :: ns) (c :: cs) = false := by
  have : lowerChar c ≠ '`' := fun he => hc (lowerChar_backtick he)
  simp [prefixCI, this]

theorem findCI_fence_none {raw : List Char} (h : ∀ ch ∈ raw, ch ≠ '`') :
    findCI ("```json".toList) raw = none := by
  induction raw with
  | nil => rfl
  | cons c cs ih =>
    have hc : c ≠ '`' := h c (List.mem_cons_self c cs)
    unfold findCI
    rw [show ("```json".toList) = '`' :: "``json".toList from rfl,
      prefixCI_backtick_head_false hc]
    simp only [Bool.false_eq_true, if_false]
    rw [show ('`' :: "``json".toList) = "```json".toList from rfl]
    rw [ih (fun x hx => h x (List.mem_cons_of_mem _ hx))]
    rfl

theorem codeFence_none {raw : List Char} (h : ∀ ch ∈ raw, ch ≠ '`') :
    codeFence raw = none := by
  unfold codeFence
  rw [findCI_fence_none h]

theorem prefixCI_self_append (ns rest : List Char) (h : ∀ ch ∈ ns, lowerChar ch = ch) :
    prefixCI ns (ns ++ rest) = true := by
  induction ns with
  | nil => rfl
  | cons n ns ih =>
    simp only [List.cons_append, prefixCI, h n (List.mem_cons_self n ns)]
    simp [ih (fun x hx => h x (List.mem_cons_of_mem _ hx))]

theorem prefixCI_fencejson_false {c : Char} (hc : c ≠ '`') (cs : List Char) :
    prefixCI ("```json".toList) (c :: cs) = false :=
  prefixCI_backtick_head_false hc _ _

theorem prefixCI_ticks_false {c : Char} (hc : c ≠ '`') (cs : List Char) :
    prefixCI ("```".toList) (c :: cs) = false :=
  prefixCI_backtick_head_false hc _ _

theorem findCI_fence_zero (rest : List Char) :
    findCI ("```json".toList) ("```json".toList ++ rest) = some 0 := by
  show findCI ("```json".toList) ('`' :: ("``json".toList ++ rest)) = some 0
  unfold findCI
  have hp : prefixCI ("```json".toList) ('`' :: ("``json".toList ++ rest)) = true :=
    prefixCI_self_append ("```json".toList) rest (by decide)
  rw [hp]
  rfl

theorem findCI_ticks_append {c : List Char} (h : ∀ ch ∈ c, ch ≠ '`') :
    findCI ("```".toList) (c ++ "```".toList) = some c.length := by
  induction c with
  | nil => rfl
  | cons x xs ih =>
    have hx : x ≠ '`' := h x (List.mem_cons_self x xs)
    show findCI ("```".toList) (x :: (xs ++ "```".toList)) = some (xs.length + 1)
    unfold findCI
    rw [prefixCI_ticks_false hx]
    simp only [Bool.false_eq_true, if_false]
    rw [ih (fun y hy => h y (List.mem_cons_of_mem _ hy))]
    rfl

theorem codeFence_fenced {c : List Char} (h : ∀ ch ∈ c, ch ≠ '`') :
    codeFence ("```json".toList ++ c ++ "```".toList) = some c := by
  unfold codeFence
  rw [List.append_assoc, findCI_fence_zero]
  dsimp only
  have hdrop : ("```json".toList ++ (c ++ "```".toList)).drop (0 + 7) = c ++ "```".toList := by
    rw [show (0 + 7) = ("```json".toList).length from rfl]
    exact List.drop_left _ _
  rw [hdrop, findCI_ticks_append h]
  dsimp only
  rw [show (c ++ "```".toList).take c.length = c from List.take_left c _]

theorem braceSlice_object (mid : List Char) :
    braceSlice ('{' :: (mid ++ ['}'])) = '{' :: (mid ++ ['}']) := by
  unfold braceSlice
  have hidx : idxOf '{' ('{' :: (mid ++ ['}'])) = some 0 := by
    unfold idxOf
    rw [if_pos rfl]
  have hrev : ('{' :: (mid ++ ['}'])).reverse = '}' :: (mid.reverse ++ ['{']) := by
    simp
  have hlast : lastIdxOf '}' ('{' :: (mid ++ ['}'])) =
      some (('{' :: (mid ++ ['}'])).length - 1) := by
    unfold lastIdxOf
    rw [hrev]
    unfold idxOf
    rw [if_pos rfl]
    rfl
  rw [hidx, hlast]
  dsimp only
  have hlen : ('{' :: (mid ++ ['}'])).length = mid.length + 2 := by simp
  rw [hlen]
  rw [if_pos (by omega)]
  rw [show (mid.length + 2 - 1 + 1 - 0) = ('{' :: (mid ++ ['}'])).length by simp]
  rw [List.drop_zero, List.take_length]

theorem parseQuestionsArray_of {v : Json} {qjs : List Json}
    (hq : getField v ("questions".toList) = some (.arr qjs))
    (hne : (qjs.filter questionValid).map mkQuizQuestion ≠ []) :
    parseQuestionsArray v = some ((qjs.filter questionValid).map mkQuizQuestion) := by
  unfold parseQuestionsArray
  rw [hq]
  dsimp only
  rw [if_neg (fun hcond => hne (List.isEmpty_iff.mp hcond))]

theorem tryParseCandidates_head_some {c : List Char} {rest : List (List Char)}
    {v : Json} {qs : List QuizQuestion}
    (hp : jsonParse c = some v) (hpa : parseQuestionsArray v = some qs) :
    tryParseCandidates (c :: rest) = some qs := by
  unfold tryParseCandidates
  rw [hp]
  dsimp only
  rw [hpa]

theorem tryParseCandidates_head_fail {c : List Char} {rest : List (List Char)}
    (hfail : jsonParse c = none ∨
      ∃ v, jsonParse c = some v ∧ parseQuestionsArray v = none) :
    tryParseCandidates (c :: rest) = tryParseCandidates rest := by
  conv_lhs => unfold tryParseCandidates
  rcases hfail with hp | ⟨v, hp, hpa⟩
  · rw [hp]
  · rw [hp]
    dsimp only
    rw [hpa]

/-- C1 (amended): for a valid (integral-number) quiz JSON input — a bare
JSON object text with no ```json opener in it, or such a text wrapped in a
backtick-free ```json code fence — whose `questions` array contains at
least one element with a string `question` and an `options` array of
exactly 4 strings, `extractQuiz` returns exactly the valid questions, in
order, each with `answer = Number(answer ?? 0)`: 0 when the field is absent
or null, and otherwise the JavaScript numeric coercion of its value — which
for a non-numeric string is NaN, not the claimed 0 (see the counterexample). -/
theorem extractQuiz_valid_json :
    (∀ mid v qjs, codeFence ('{' :: (mid ++ ['}'])) = none →
      jsonParse ('{' :: (mid ++ ['}'])) = some v →
      getField v ("questions".toList) = some (.arr qjs) →
      (qjs.filter questionValid).map mkQuizQuestion ≠ [] →
      extractQuiz ('{' :: (mid ++ ['}'])) =
        { quiz := some ((qjs.filter questionValid).map mkQuizQuestion)
          message := readyMessage }) ∧
    (∀ c v qjs, (∀ ch ∈ c, ch ≠ '`') →
      jsonParse c = some v →
      getField v ("questions".toList) = some (.arr qjs) →
      (qjs.filter questionValid).map mkQuizQuestion ≠ [] →
      extractQuiz ("```json".toList ++ c ++ "```".toList) =
        { quiz := some ((qjs.filter questionValid).map mkQuizQuestion)
          message := readyMessage }) := by
  constructor
  · intro mid v qjs hcf hp hq hne
    unfold extractQuiz
    rw [hcf]
    dsimp only
    rw [braceSlice_object mid]
    simp only [List.cons_append, List.nil_append]
    rw [tryParseCandidates_head_some hp (parseQuestionsArray_of hq hne)]
  · intro c v qjs hbt hp hq hne
    unfold extractQuiz
    rw [codeFence_fenced hbt]
    dsimp only
    simp only [List.cons_append, List.nil_append]
    rw [tryParseCandidates_head_some hp (parseQuestionsArray_of hq hne)]

theorem extractQuiz_valid_json_witness :
    extractQuiz
      ("```json\x7b\"questions\":[\x7b\"question\":\"2+2?\",\"options\":[\"3\",\"4\",\"5\",\"6\"],\"answer\":1\x7d]\x7d```".toList) =
      { quiz := some [{ question := "2+2?".toList
                        options := ["3".toList, "4".toList, "5".toList, "6".toList]
                        answer := .num 1 }]
        message := readyMessage } := by
  have h := extractQuiz_valid_json.2
    ("\x7b\"questions\":[\x7b\"question\":\"2+2?\",\"options\":[\"3\",\"4\",\"5\",\"6\"],\"answer\":1\x7d]\x7d".toList)
    (Json.obj [("questions".toList,
      Json.arr [Json.obj [("question".toList, Json.str ("2+2?".toList)),
        ("options".toList, Json.arr [Json.str ("3".toList), Json.str ("4".toList),
          Json.str ("5".toList), Json.str ("6".toList)]),
        ("answer".toList, Json.num 1)]])])
    [Json.obj [("question".toList, Json.str ("2+2?".toList)),
      ("options".toList, Json.arr [Json.str ("3".toList), Json.str ("4".toList),
        Json.str ("5".toList), Json.str ("6".toList)]),
      ("answer".toList, Json.num 1)]]
    (by decide) rfl rfl (by decide)
  exact h

/-- C1 counterexample: a valid quiz JSON whose `answer` is the non-numeric
string `"abc"` is recovered with `answer = NaN`, not the claimed default 0. -/
theorem extractQuiz_nan_answer_counterexample :
    (extractQuiz
      ("\x7b\"questions\":[\x7b\"question\":\"q\",\"options\":[\"a\",\"b\",\"c\",\"d\"],\"answer\":\"abc\"\x7d]\x7d".toList)).quiz =
      some [{ question := "q".toList
              options := ["a".toList, "b".toList, "c".toList, "d".toList]
              answer := .nan }] ∧
    JsNum.nan ≠ JsNum.num 0 := by
  exact ⟨rfl, by decide⟩

/-- C5 (amended): for quiz JSON wrapped in a backtick-free ```json fence,
where the raw fence content fails to parse (e.g. a trailing comma) but the
`cleanJson`-normalized content parses to the same JSON value as the clean,
comma-free equivalent, `extractQuiz` recovers the same question set from
both inputs.  The proviso that normalization reaches the *same value* is
necessary: `cleanJson` also rewrites whitespace runs and comma-bracket
pairs inside string literals, so without it the recovered questions can
differ (see the counterexample). -/
theorem extractQuiz_trailing_comma (body c : List Char) (v : Json) (qjs : List Json)
    (hbt : ∀ ch ∈ body, ch ≠ '`') (hct : ∀ ch ∈ c, ch ≠ '`')
    (hbody : jsonParse body = none)
    (hclean : jsonParse (cleanJson body) = some v)
    (hcp : jsonParse c = some v)
    (hq : getField v ("questions".toList) = some (.arr qjs))
    (hne : (qjs.filter questionValid).map mkQuizQuestion ≠ []) :
    extractQuiz ("```json".toList ++ body ++ "```".toList) =
      { quiz := some ((qjs.filter questionValid).map mkQuizQuestion)
        message := readyMessage } ∧
    extractQuiz ("```json".toList ++ c ++ "```".toList) =
      { quiz := some ((qjs.filter questionValid).map mkQuizQuestion)
        message := readyMessage } := by
  constructor
  · unfold extractQuiz
    rw [codeFence_fenced hbt]
    dsimp only
    simp only [List.cons_append, List.nil_append]
    rw [tryParseCandidates_head_fail (.inl hbody)]
    rw [tryParseCandidates_head_some hclean (parseQuestionsArray_of hq hne)]
  · unfold extractQuiz
    rw [codeFence_fenced hct]
    dsimp only
    simp only [List.cons_append, List.nil_append]
    rw [tryParseCandidates_head_some hcp (parseQuestionsArray_of hq hne)]

theorem extractQuiz_trailing_comma_witness :
    extractQuiz
      ("```json\x7b\"questions\":[\x7b\"question\":\"2+2?\",\"options\":[\"3\",\"4\",\"5\",\"6\"],\"answer\":1\x7d,]\x7d```".toList) =
      { quiz := some [{ question := "2+2?".toList
                        options := ["3".toList, "4".toList, "5".toList, "6".toList]
                        answer := .num 1 }]
        message := readyMessage } ∧
    extractQuiz
      ("```json\x7b\"questions\":[\x7b\"question\":\"2+2?\",\"options\":[\"3\",\"4\",\"5\",\"6\"],\"answer\":1\x7d]\x7d```".toList) =
      { quiz := some [{ question := "2+2?".toList
                        options := ["3".toList, "4".toList, "5".toList, "6".toList]
                        answer := .num 1 }]
        message := readyMessage } := by
  have h := extractQuiz_trailing_comma
    ("\x7b\"questions\":[\x7b\"question\":\"2+2?\",\"options\":[\"3\",\"4\",\"5\",\"6\"],\"answer\":1\x7d,]\x7d".toList)
    ("\x7b\"questions\":[\x7b\"question\":\"2+2?\",\"options\":[\"3\",\"4\",\"5\",\"6\"],\"answer\":1\x7d]\x7d".toList)
    (Json.obj [("questions".toList,
      Json.arr [Json.obj [("question".toList, Json.str ("2+2?".toList)),
        ("options".toList, Json.arr [Json.str ("3".toList), Json.str ("4".toList),
          Json.str ("5".toList), Json.str ("6".toList)]),
        ("answer".toList, Json.num 1)]])])
    [Json.obj [("question".toList, Json.str ("2+2?".toList)),
      ("options".toList, Json.arr [Json.str ("3".toList), Json.str ("4".toList),
        Json.str ("5".toList), Json.str ("6".toList)]),
      ("answer".toList, Json.num 1)]]
    (by decide) (by decide) rfl rfl rfl rfl (by decide)
  exact h

/-- C5 counterexample: a fenced quiz JSON with a trailing comma whose
question text contains a double space is recovered with the space run
collapsed, so the question set differs from the clean equivalent's. -/
theorem extractQuiz_trailing_comma_counterexample :
    (extractQuiz
      ("```json\x7b\"questions\":[\x7b\"question\":\"a  b\",\"options\":[\"a\",\"b\",\"c\",\"d\"],\"answer\":0\x7d,]\x7d```".toList)).quiz =
      some [{ question := "a b".toList
              options := ["a".toList, "b".toList, "c".toList, "d".toList]
              answer := .num 0 }] ∧
    (extractQuiz
      ("```json\x7b\"questions\":[\x7b\"question\":\"a  b\",\"options\":[\"a\",\"b\",\"c\",\"d\"],\"answer\":0\x7d]\x7d```".toList)).quiz =
      some [{ question := "a  b".toList
              options := ["a".toList, "b".toList, "c".toList, "d".toList]
              answer := .num 0 }] ∧
    ({ question := "a b".toList
       options := ["a".toList, "b".toList, "c".toList, "d".toList]
       answer := .num 0 } : QuizQuestion) ≠
      { question := "a  b".toList
        options := ["a".toList, "b".toList, "c".toList, "d".toList]
        answer := .num 0 } := by
  exact ⟨rfl, rfl, by decide⟩

/-! ### Character-class facts for the markdown fallback -/

theorem optionLetter_ranges {c : Char} (h : optionLetter c = true) :
    (65 ≤ c.toNat ∧ c.toNat ≤ 68) ∨ (97 ≤ c.toNat ∧ c.toNat ≤ 100) ∨
    (1040 ≤ c.toNat ∧ c.toNat ≤ 1043) ∨ (1072 ≤ c.toNat ∧ c.toNat ≤ 1075) := by
  unfold optionLetter at h
  simp only [Bool.or_eq_true, Bool.and_eq_true, decide_eq_true_eq] at h
  rcases h with ((⟨ha, hb⟩ | ⟨ha, hb⟩) | ⟨ha, hb⟩) | ⟨ha, hb⟩
  · rw [Char.le_def] at ha hb
    change (65 : Nat) ≤ c.toNat at ha
    change c.toNat ≤ 68 at hb
    exact Or.inl ⟨ha, hb⟩
  · rw [Char.le_def] at ha hb
    change (97 : Nat) ≤ c.toNat at ha
    change c.toNat ≤ 100 at hb
    exact Or.inr (Or.inl ⟨ha, hb⟩)
  · exact Or.inr (Or.inr (Or.inl ⟨ha, hb⟩))
  · exact Or.inr (Or.inr (Or.inr ⟨ha, hb⟩))

theorem optionLetter_not_digit {c : Char} (h : optionLetter c = true) :
    isDigitChar c = false := by
  cases hd : isDigitChar c
  · rfl
  · exfalso
    unfold isDigitChar at hd
    obtain ⟨h1, h2⟩ := Bool.and_eq_true_iff.mp hd
    rw [decide_eq_true_eq, Char.le_def] at h1
    rw [decide_eq_true_eq, Char.le_def] at h2
    change (48 : Nat) ≤ c.toNat at h1
    change c.toNat ≤ 57 at h2
    rcases optionLetter_ranges h with ⟨ha, hb⟩ | ⟨ha, hb⟩ | ⟨ha, hb⟩ | ⟨ha, hb⟩ <;> omega

theorem optionLetter_not_ws {c : Char} (h : optionLetter c = true) :
    jsWsChar c = false := by
  cases hw : jsWsChar c
  · rfl
  · exfalso
    unfold jsWsChar at hw
    simp only [Bool.or_eq_true, decide_eq_true_eq] at hw
    rcases optionLetter_ranges h with ⟨ha, hb⟩ | ⟨ha, hb⟩ | ⟨ha, hb⟩ | ⟨ha, hb⟩ <;>
      rcases hw with ((((rfl | rfl) | rfl) | rfl) | rfl) | rfl <;>
        (revert ha; decide)

theorem optionLetter_ne_marks {c : Char} (h : optionLetter c = true) :
    c ≠ '-' ∧ c ≠ '*' ∧ c ≠ '`' ∧ c ≠ '\x7b' ∧ c ≠ '"' ∧ c ≠ '#' ∧
      c ≠ '\n' ∧ c ≠ '\r' := by
  rcases optionLetter_ranges h with ⟨ha, hb⟩ | ⟨ha, hb⟩ | ⟨ha, hb⟩ | ⟨ha, hb⟩ <;>
    exact ⟨fun he => by rw [he] at ha hb; revert ha hb; decide,
           fun he => by rw [he] at ha hb; revert ha hb; decide,
           fun he => by rw [he] at ha hb; revert ha hb; decide,
           fun he => by rw [he] at ha hb; revert ha hb; decide,
           fun he => by rw [he] at ha hb; revert ha hb; decide,
           fun he => by rw [he] at ha hb; revert ha hb; decide,
           fun he => by rw [he] at ha hb; revert ha hb; decide,
           fun he => by rw [he] at ha hb; revert ha hb; decide⟩

/-! ### Trim fixed points -/

theorem dropWhile_eq_self_of_trim_fix {t : List Char} (ht : jsTrim t = t) :
    t.dropWhile jsWsChar = t := by
  have hsub := List.dropWhile_sublist (l := t) jsWsChar
  refine hsub.eq_of_length ?_
  have h1 : (jsTrim t).length ≤ (t.dropWhile jsWsChar).length := by
    unfold jsTrim
    rw [List.length_reverse]
    calc ((t.dropWhile jsWsChar).reverse.dropWhile jsWsChar).length
        ≤ (t.dropWhile jsWsChar).reverse.length :=
          (List.dropWhile_sublist _).length_le
      _ = (t.dropWhile jsWsChar).length := List.length_reverse _
  rw [ht] at h1
  exact Nat.le_antisymm hsub.length_le h1

theorem rev_dropWhile_eq_self_of_trim_fix {t : List Char} (ht : jsTrim t = t) :
    t.reverse.dropWhile jsWsChar = t.reverse := by
  have hd := dropWhile_eq_self_of_trim_fix ht
  have h2 : jsTrim t = (t.reverse.dropWhile jsWsChar).reverse := by
    unfold jsTrim
    rw [hd]
  rw [ht] at h2
  calc t.reverse.dropWhile jsWsChar
      = (t.reverse.dropWhile jsWsChar).reverse.reverse := (List.reverse_reverse _).symm
    _ = t.reverse := by rw [← h2]

theorem head_not_ws_of_dropWhile_fix {c : Char} {cs : List Char}
    (h : (c :: cs).dropWhile jsWsChar = c :: cs) : jsWsChar c = false := by
  cases hw : jsWsChar c
  · rfl
  · exfalso
    rw [List.dropWhile_cons, hw, if_pos rfl] at h
    have hle := (List.dropWhile_sublist (l := cs) jsWsChar).length_le
    rw [h, List.length_cons] at hle
    omega

theorem jsTrim_eq_self {l : List Char} (h1 : l.dropWhile jsWsChar = l)
    (h2 : l.reverse.dropWhile jsWsChar = l.reverse) : jsTrim l = l := by
  unfold jsTrim
  rw [h1, h2, List.reverse_reverse]

/-! ### Identity lemmas: text without marker characters passes the
normalizers unchanged -/

theorem stripBold_id {cs : List Char} (h : ∀ ch ∈ cs, ch ≠ '*') :
    stripBold cs = cs := by
  induction cs with
  | nil => rfl
  | cons c rest ih =>
    have hc : c ≠ '*' := h c (List.mem_cons_self c rest)
    have ihr : stripBold rest = rest := ih (fun x hx => h x (List.mem_cons_of_mem _ hx))
    unfold stripBold
    split <;> simp_all

theorem stripHeadingsGo_id {cs : List Char} (h : ∀ ch ∈ cs, ch ≠ '#') :
    ∀ st, stripHeadingsGo st cs = cs := by
  induction cs with
  | nil => intro st; cases st <;> rfl
  | cons c rest ih =>
    intro st
    have hc : c ≠ '#' := h c (List.mem_cons_self c rest)
    have ih' : ∀ st, stripHeadingsGo st rest = rest :=
      ih (fun x hx => h x (List.mem_cons_of_mem _ hx))
    unfold stripHeadingsGo
    split <;> simp_all

theorem stripFenceGo_id : ∀ (f : Nat) {cs : List Char}, (∀ ch ∈ cs, ch ≠ '`') →
    stripFenceGo f cs = cs := by
  intro f
  induction f with
  | zero => intro cs h; unfold stripFenceGo; cases cs <;> rfl
  | succ f ih =>
    intro cs h
    cases cs with
    | nil => rfl
    | cons c rest =>
      have hc : c ≠ '`' := h c (List.mem_cons_self c rest)
      have ihr : stripFenceGo f rest = rest :=
        ih (fun x hx => h x (List.mem_cons_of_mem _ hx))
      unfold stripFenceGo
      split <;> simp_all

theorem idxOf_eq_none {ch : Char} {cs : List Char} (h : ∀ c ∈ cs, c ≠ ch) :
    idxOf ch cs = none := by
  induction cs with
  | nil => rfl
  | cons c rest ih =>
    unfold idxOf
    rw [if_neg (h c (List.mem_cons_self c rest))]
    rw [ih (fun x hx => h x (List.mem_cons_of_mem _ hx))]
    rfl

theorem braceSlice_id {raw : List Char} (h : ∀ ch ∈ raw, ch ≠ '\x7b') :
    braceSlice raw = raw := by
  unfold braceSlice
  rw [idxOf_eq_none h]

theorem matchQuestionsAt_none {c : Char} (hc : c ≠ '"') (rest : List Char) :
    matchQuestionsAt (c :: rest) = none := by
  have hnp : ¬ (("\"questions\"".toList).isPrefixOf (c :: rest) = true) := by
    intro hpre
    rw [show ("\"questions\"".toList) = '"' :: "questions\"".toList from rfl] at hpre
    simp only [List.isPrefixOf] at hpre
    obtain ⟨h1, -⟩ := Bool.and_eq_true_iff.mp hpre
    exact hc (beq_iff_eq.mp h1).symm
  simp only [matchQuestionsAt]
  rw [if_neg hnp]

theorem questionsFragment_none {raw : List Char} (h : ∀ ch ∈ raw, ch ≠ '"') :
    questionsFragment raw = none := by
  induction raw with
  | nil => rfl
  | cons c rest ih =>
    have hc : c ≠ '"' := h c (List.mem_cons_self c rest)
    unfold questionsFragment
    rw [matchQuestionsAt_none hc]
    exact ih (fun x hx => h x (List.mem_cons_of_mem _ hx))

/-! ### Splitting a newline-joined text into lines -/

theorem splitLines_single {xs : List Char} (h : ∀ c ∈ xs, c ≠ '\n' ∧ c ≠ '\r') :
    splitLines xs = [xs] := by
  induction xs with
  | nil => rfl
  | cons c rest ih =>
    obtain ⟨hn, hr⟩ := h c (List.mem_cons_self c rest)
    have ihr : splitLines rest = [rest] :=
      ih (fun x hx => h x (List.mem_cons_of_mem _ hx))
    unfold splitLines
    split <;> simp_all

theorem splitLines_append {xs ys : List Char} (h : ∀ c ∈ xs, c ≠ '\n' ∧ c ≠ '\r') :
    splitLines (xs ++ '\n' :: ys) = xs :: splitLines ys := by
  induction xs with
  | nil => rfl
  | cons c rest ih =>
    obtain ⟨hn, hr⟩ := h c (List.mem_cons_self c rest)
    have ihr : splitLines (rest ++ '\n' :: ys) = rest :: splitLines ys :=
      ih (fun x hx => h x (List.mem_cons_of_mem _ hx))
    rw [List.cons_append]
    conv_lhs => unfold splitLines
    split <;> simp_all

/-! ### A text starting `1)` never parses as JSON, before or after cleaning -/

theorem jsonParse_oneparen (t : List Char) : jsonParse ('1' :: ')' :: t) = none := by
  rfl

theorem dropWhile_cons_false {c : Char} (hc : jsWsChar c = false) (cs : List Char) :
    (c :: cs).dropWhile jsWsChar = c :: cs := by
  rw [List.dropWhile_cons, hc]
  simp

theorem newlinesToSpace_oneparen (u : List Char) :
    newlinesToSpace ('1' :: ')' :: u) = '1' :: ')' :: newlinesToSpace u := rfl

theorem removeComma_oneparen (u : List Char) :
    removeCommaBeforeBracket ('1' :: ')' :: u) =
      '1' :: ')' :: dropCommaRun (u.length + 1) u := rfl

theorem collapseWs_oneparen (u : List Char) :
    collapseWs ('1' :: ')' :: u) = '1' :: ')' :: collapseWsGo false u := rfl

theorem jsTrim_cons2 {a b : Char} (ha : jsWsChar a = false) (hb : jsWsChar b = false)
    (u : List Char) : ∃ w, jsTrim (a :: b :: u) = a :: b :: w := by
  have h1 : (a :: b :: u).dropWhile jsWsChar = a :: b :: u := dropWhile_cons_false ha _
  have hrev : (a :: b :: u).reverse = u.reverse ++ [b, a] := by simp
  have h2 : (u.reverse ++ [b, a]).dropWhile jsWsChar =
      (if (u.reverse.dropWhile jsWsChar).isEmpty then ([] : List Char)
       else u.reverse.dropWhile jsWsChar) ++ [b, a] := by
    rw [List.dropWhile_append]
    by_cases he : (u.reverse.dropWhile jsWsChar).isEmpty = true
    · rw [if_pos he, if_pos he, List.nil_append]
      exact dropWhile_cons_false hb _
    · rw [if_neg he, if_neg he]
  refine ⟨(if (u.reverse.dropWhile jsWsChar).isEmpty then ([] : List Char)
       else u.reverse.dropWhile jsWsChar).reverse, ?_⟩
  unfold jsTrim
  rw [h1, hrev, h2, List.reverse_append]
  rfl

theorem cleanJson_oneparen {rest : List Char}
    (hb : ∀ ch ∈ '1' :: ')' :: rest, ch ≠ '`') :
    ∃ w, cleanJson ('1' :: ')' :: rest) = '1' :: ')' :: w := by
  unfold cleanJson
  have h1 : stripFenceTokens ('1' :: ')' :: rest) = '1' :: ')' :: rest :=
    stripFenceGo_id _ hb
  rw [h1, newlinesToSpace_oneparen, removeComma_oneparen, collapseWs_oneparen]
  exact jsTrim_cons2 (by decide) (by decide) _

/-! ### Line matchers on the structured question and option lines -/

theorem questionLineMatch_nondigit {c : Char} (hc : isDigitChar c = false)
    (rest : List Char) : questionLineMatch (c :: rest) = none := by
  unfold questionLineMatch
  have hs : spanDigits (c :: rest) = ([], c :: rest) := by
    unfold spanDigits
    rw [hc]
    simp
  rw [hs]

theorem questionLineMatch_mk {qt : List Char} (hne : qt ≠ []) (ht : jsTrim qt = qt)
    (hnl : ∀ ch ∈ qt, ch ≠ '\n' ∧ ch ≠ '\r') :
    questionLineMatch (mdQuestionLine qt) = some qt := by
  obtain ⟨c0, cs0, rfl⟩ : ∃ c0 cs0, qt = c0 :: cs0 := by
    cases qt with
    | nil => exact absurd rfl hne
    | cons a b => exact ⟨a, b, rfl⟩
  have hdw : (c0 :: cs0).dropWhile jsWsChar = c0 :: cs0 := dropWhile_eq_self_of_trim_fix ht
  have hwne : ((' ' :: c0 :: cs0).takeWhile jsWsChar).isEmpty = false := by
    rw [List.takeWhile_cons, if_pos (by decide : jsWsChar ' ' = true)]
    rfl
  have hr3 : (' ' :: c0 :: cs0).dropWhile jsWsChar = c0 :: cs0 := by
    rw [List.dropWhile_cons, if_pos (by decide : jsWsChar ' ' = true)]
    exact hdw
  have hcap : (c0 :: cs0).takeWhile (fun ch => ch ≠ '\n' && ch ≠ '\r') = c0 :: cs0 := by
    refine List.takeWhile_eq_self_iff.mpr ?_
    intro x hx
    obtain ⟨h1, h2⟩ := hnl x hx
    simp [h1, h2]
  unfold mdQuestionLine questionLineMatch
  rw [show spanDigits ('1' :: ')' :: ' ' :: c0 :: cs0) =
    (['1'], ')' :: ' ' :: c0 :: cs0) from rfl]
  dsimp only
  simp [hr3, hcap, hwne]
  refine ⟨⟨(hnl c0 (List.mem_cons_self c0 cs0)).1, (hnl c0 (List.mem_cons_self c0 cs0)).2⟩, ?_⟩
  intro a ha
  exact hnl a (List.mem_cons_of_mem _ ha)

theorem optionLineMatch_mk {li : Char} (hl : optionLetter li = true) {ti : List Char}
    (hne : ti ≠ []) (ht : jsTrim ti = ti)
    (hnl : ∀ ch ∈ ti, ch ≠ '\n' ∧ ch ≠ '\r') :
    optionLineMatch (mdOptionLine li ti) = some ti := by
  have hws : jsWsChar li = false := optionLetter_not_ws hl
  have marks := optionLetter_ne_marks hl
  have hcond : (li = '-' || li = '*') = false := by
    rw [Bool.or_eq_false_iff]
    exact ⟨decide_eq_false marks.1, decide_eq_false marks.2.1⟩
  have hr4 : (' ' :: ti).dropWhile jsWsChar = ti := by
    rw [List.dropWhile_cons, if_pos (by decide : jsWsChar ' ' = true)]
    exact dropWhile_eq_self_of_trim_fix ht
  have hemp : ti.isEmpty = false := by
    cases ti with
    | nil => exact absurd rfl hne
    | cons a b => rfl
  have hany : (ti.any (fun ch => ch = '\n' || ch = '\r')) = false := by
    rw [List.any_eq_false]
    intro x hx
    obtain ⟨h1, h2⟩ := hnl x hx
    simp [h1, h2]
  have hc2 : (optionLetter li && (')' = ')' || ')' = '.')) = true := by
    rw [hl]
    decide
  unfold mdOptionLine optionLineMatch
  dsimp only
  rw [if_neg (show ¬ ((li = '-' || li = '*') = true) from fun hx => by
    rw [hcond] at hx; cases hx)]
  rw [dropWhile_cons_false hws]
  dsimp only
  rw [if_pos hc2, hr4]
  simp [hemp, hany]

/-! ### The markdown quiz input and its cleaned lines -/

theorem mem_mdQuizRaw {qt t1 t2 t3 t4 : List Char} {l1 l2 l3 l4 : Char} {ch : Char}
    (h : ch ∈ mdQuizRaw qt l1 t1 l2 t2 l3 t3 l4 t4) :
    ch = '1' ∨ ch = ')' ∨ ch = ' ' ∨ ch = '\n' ∨
    ch ∈ qt ∨ ch = l1 ∨ ch ∈ t1 ∨ ch = l2 ∨ ch ∈ t2 ∨
    ch = l3 ∨ ch ∈ t3 ∨ ch = l4 ∨ ch ∈ t4 := by
  unfold mdQuizRaw mdQuestionLine mdOptionLine at h
  simp only [List.mem_append, List.mem_cons] at h
  tauto

theorem mdQuizRaw_avoid {qt t1 t2 t3 t4 : List Char} {l1 l2 l3 l4 : Char}
    (hqt : mdText qt) (h1 : mdText t1) (h2 : mdText t2) (h3 : mdText t3)
    (h4 : mdText t4) (hl1 : optionLetter l1 = true) (hl2 : optionLetter l2 = true)
    (hl3 : optionLetter l3 = true) (hl4 : optionLetter l4 = true) :
    ∀ ch ∈ mdQuizRaw qt l1 t1 l2 t2 l3 t3 l4 t4,
      ch ≠ '*' ∧ ch ≠ '#' ∧ ch ≠ '`' ∧ ch ≠ '\x7b' ∧ ch ≠ '"' := by
  intro ch hch
  rcases mem_mdQuizRaw hch with rfl|rfl|rfl|rfl|hm|rfl|hm|rfl|hm|rfl|hm|rfl|hm
  · exact ⟨by decide, by decide, by decide, by decide, by decide⟩
  · exact ⟨by decide, by decide, by decide, by decide, by decide⟩
  · exact ⟨by decide, by decide, by decide, by decide, by decide⟩
  · exact ⟨by decide, by decide, by decide, by decide, by decide⟩
  · obtain ⟨hbrace, hquote, hbt, hstar, hhash, -, -⟩ := hqt.2.2 ch hm
    exact ⟨hstar, hhash, hbt, hbrace, hquote⟩
  · obtain ⟨-, hstar, hbt, hbrace, hquote, hhash, -, -⟩ := optionLetter_ne_marks hl1
    exact ⟨hstar, hhash, hbt, hbrace, hquote⟩
  · obtain ⟨hbrace, hquote, hbt, hstar, hhash, -, -⟩ := h1.2.2 ch hm
    exact ⟨hstar, hhash, hbt, hbrace, hquote⟩
  · obtain ⟨-, hstar, hbt, hbrace, hquote, hhash, -, -⟩ := optionLetter_ne_marks hl2
    exact ⟨hstar, hhash, hbt, hbrace, hquote⟩
  · obtain ⟨hbrace, hquote, hbt, hstar, hhash, -, -⟩ := h2.2.2 ch hm
    exact ⟨hstar, hhash, hbt, hbrace, hquote⟩
  · obtain ⟨-, hstar, hbt, hbrace, hquote, hhash, -, -⟩ := optionLetter_ne_marks hl3
    exact ⟨hstar, hhash, hbt, hbrace, hquote⟩
  · obtain ⟨hbrace, hquote, hbt, hstar, hhash, -, -⟩ := h3.2.2 ch hm
    exact ⟨hstar, hhash, hbt, hbrace, hquote⟩
  · obtain ⟨-, hstar, hbt, hbrace, hquote, hhash, -, -⟩ := optionLetter_ne_marks hl4
    exact ⟨hstar, hhash, hbt, hbrace, hquote⟩
  · obtain ⟨hbrace, hquote, hbt, hstar, hhash, -, -⟩ := h4.2.2 ch hm
    exact ⟨hstar, hhash, hbt, hbrace, hquote⟩

theorem jsTrim_fix_of_ends {a : Char} (ha : jsWsChar a = false) (mid : List Char)
    {t : List Char} (hne : t ≠ []) (ht : jsTrim t = t) :
    jsTrim (a :: (mid ++ t)) = a :: (mid ++ t) := by
  apply jsTrim_eq_self
  · exact dropWhile_cons_false ha _
  · have hrevne : ¬ (t.reverse.isEmpty = true) := by
      intro hcontra
      exact hne (by simpa using List.isEmpty_iff.mp hcontra)
    have hfix : t.reverse.dropWhile jsWsChar = t.reverse :=
      rev_dropWhile_eq_self_of_trim_fix ht
    have hrev : (a :: (mid ++ t)).reverse = t.reverse ++ (mid.reverse ++ [a]) := by
      simp
    rw [hrev, List.dropWhile_append, hfix, if_neg hrevne]

theorem mdQuestionLine_nl {qt : List Char} (hq : ∀ ch ∈ qt, ch ≠ '\n' ∧ ch ≠ '\r') :
    ∀ c ∈ mdQuestionLine qt, c ≠ '\n' ∧ c ≠ '\r' := by
  intro c hc
  simp only [mdQuestionLine, List.mem_cons] at hc
  rcases hc with rfl | rfl | rfl | hc
  · exact ⟨by decide, by decide⟩
  · exact ⟨by decide, by decide⟩
  · exact ⟨by decide, by decide⟩
  · exact hq c hc

theorem mdOptionLine_nl {li : Char} (hl : optionLetter li = true) {ti : List Char}
    (ht : ∀ ch ∈ ti, ch ≠ '\n' ∧ ch ≠ '\r') :
    ∀ c ∈ mdOptionLine li ti, c ≠ '\n' ∧ c ≠ '\r' := by
  intro c hc
  simp only [mdOptionLine, List.mem_cons] at hc
  have marks := optionLetter_ne_marks hl
  rcases hc with rfl | rfl | rfl | hc
  · exact ⟨marks.2.2.2.2.2.2.1, marks.2.2.2.2.2.2.2⟩
  · exact ⟨by decide, by decide⟩
  · exact ⟨by decide, by decide⟩
  · exact ht c hc

theorem cleanedLines_mdQuizRaw {qt t1 t2 t3 t4 : List Char} {l1 l2 l3 l4 : Char}
    (hqt : mdText qt) (h1 : mdText t1) (h2 : mdText t2) (h3 : mdText t3)
    (h4 : mdText t4) (hl1 : optionLetter l1 = true) (hl2 : optionLetter l2 = true)
    (hl3 : optionLetter l3 = true) (hl4 : optionLetter l4 = true) :
    cleanedLines (mdQuizRaw qt l1 t1 l2 t2 l3 t3 l4 t4) =
      [mdQuestionLine qt, mdOptionLine l1 t1, mdOptionLine l2 t2,
       mdOptionLine l3 t3, mdOptionLine l4 t4] := by
  have havoid := mdQuizRaw_avoid hqt h1 h2 h3 h4 hl1 hl2 hl3 hl4
  have hstar : ∀ ch ∈ mdQuizRaw qt l1 t1 l2 t2 l3 t3 l4 t4, ch ≠ '*' :=
    fun ch hch => (havoid ch hch).1
  have hhash : ∀ ch ∈ mdQuizRaw qt l1 t1 l2 t2 l3 t3 l4 t4, ch ≠ '#' :=
    fun ch hch => (havoid ch hch).2.1
  have nlq : ∀ ch ∈ qt, ch ≠ '\n' ∧ ch ≠ '\r' := fun ch hch =>
    ⟨(hqt.2.2 ch hch).2.2.2.2.2.1, (hqt.2.2 ch hch).2.2.2.2.2.2⟩
  have nl1 : ∀ ch ∈ t1, ch ≠ '\n' ∧ ch ≠ '\r' := fun ch hch =>
    ⟨(h1.2.2 ch hch).2.2.2.2.2.1, (h1.2.2 ch hch).2.2.2.2.2.2⟩
  have nl2 : ∀ ch ∈ t2, ch ≠ '\n' ∧ ch ≠ '\r' := fun ch hch =>
    ⟨(h2.2.2 ch hch).2.2.2.2.2.1, (h2.2.2 ch hch).2.2.2.2.2.2⟩
  have nl3 : ∀ ch ∈ t3, ch ≠ '\n' ∧ ch ≠ '\r' := fun ch hch =>
    ⟨(h3.2.2 ch hch).2.2.2.2.2.1, (h3.2.2 ch hch).2.2.2.2.2.2⟩
  have nl4 : ∀ ch ∈ t4, ch ≠ '\n' ∧ ch ≠ '\r' := fun ch hch =>
    ⟨(h4.2.2 ch hch).2.2.2.2.2.1, (h4.2.2 ch hch).2.2.2.2.2.2⟩
  have htQ : jsTrim (mdQuestionLine qt) = mdQuestionLine qt :=
    jsTrim_fix_of_ends (by decide) [')', ' '] hqt.1 hqt.2.1
  have htO1 : jsTrim (mdOptionLine l1 t1) = mdOptionLine l1 t1 :=
    jsTrim_fix_of_ends (optionLetter_not_ws hl1) [')', ' '] h1.1 h1.2.1
  have htO2 : jsTrim (mdOptionLine l2 t2) = mdOptionLine l2 t2 :=
    jsTrim_fix_of_ends (optionLetter_not_ws hl2) [')', ' '] h2.1 h2.2.1
  have htO3 : jsTrim (mdOptionLine l3 t3) = mdOptionLine l3 t3 :=
    jsTrim_fix_of_ends (optionLetter_not_ws hl3) [')', ' '] h3.1 h3.2.1
  have htO4 : jsTrim (mdOptionLine l4 t4) = mdOptionLine l4 t4 :=
    jsTrim_fix_of_ends (optionLetter_not_ws hl4) [')', ' '] h4.1 h4.2.1
  unfold cleanedLines
  rw [stripBold_id hstar]
  rw [show stripHeadings (mdQuizRaw qt l1 t1 l2 t2 l3 t3 l4 t4) =
    mdQuizRaw qt l1 t1 l2 t2 l3 t3 l4 t4 from stripHeadingsGo_id hhash true]
  rw [show mdQuizRaw qt l1 t1 l2 t2 l3 t3 l4 t4 =
    mdQuestionLine qt ++ '\n' :: (mdOptionLine l1 t1 ++ '\n' ::
      (mdOptionLine l2 t2 ++ '\n' :: (mdOptionLine l3 t3 ++ '\n' ::
        mdOptionLine l4 t4))) from rfl]
  rw [splitLines_append (mdQuestionLine_nl nlq),
      splitLines_append (mdOptionLine_nl hl1 nl1),
      splitLines_append (mdOptionLine_nl hl2 nl2),
      splitLines_append (mdOptionLine_nl hl3 nl3),
      splitLines_single (mdOptionLine_nl hl4 nl4)]
  simp only [List.map_cons, List.map_nil]
  rw [htQ, htO1, htO2, htO3, htO4]
  simp [show (mdQuestionLine qt).isEmpty = false from rfl,
    show (mdOptionLine l1 t1).isEmpty = false from rfl,
    show (mdOptionLine l2 t2).isEmpty = false from rfl,
    show (mdOptionLine l3 t3).isEmpty = false from rfl,
    show (mdOptionLine l4 t4).isEmpty = false from rfl]

/-- An option-line step of the fallback scan with fewer than 4 options
collected: the trimmed capture is appended and the answer index updated when
the capture carries a marker. -/
theorem mdStep_option {fin : List QuizQuestion} {q : List Char}
    {opts : List (List Char)} {a : JsNum} {li : Char} {ti : List Char}
    (hqn : questionLineMatch (mdOptionLine li ti) = none)
    (hon : optionLineMatch (mdOptionLine li ti) = some ti)
    (htr : jsTrim ti = ti)
    (hlen : opts.length < 4) :
    mdStep (fin, some ⟨q, opts, a⟩) (mdOptionLine li ti) =
      (fin, some ⟨q, opts ++ [ti],
        if markerTest ti then .num opts.length else a⟩) := by
  unfold mdStep
  rw [hqn]
  dsimp only
  rw [hon]
  dsimp only
  rw [if_pos hlen, htr]

/-- C6: for markdown-style quiz text — a question line `1) <question>`
followed by four option lines `<letter>) <text>` whose letters come from the
case-insensitive class `[A-DА-Га-г]`, with plain (trimmed, marker-free,
single-line) texts, where exactly one option text contains a correct-answer
marker (намely the one at index `k`) — `extractQuiz` produces exactly one
question carrying the question text, the four option texts in order, and
`answer` equal to the marked index `k`, together with the ready message. -/
theorem extractQuiz_markdown_fallback {qt t1 t2 t3 t4 : List Char}
    {l1 l2 l3 l4 : Char}
    (hqt : mdText qt) (h1 : mdText t1) (h2 : mdText t2) (h3 : mdText t3)
    (h4 : mdText t4) (hl1 : optionLetter l1 = true) (hl2 : optionLetter l2 = true)
    (hl3 : optionLetter l3 = true) (hl4 : optionLetter l4 = true)
    (k : Fin 4)
    (hm1 : markerTest t1 = decide (k.val = 0))
    (hm2 : markerTest t2 = decide (k.val = 1))
    (hm3 : markerTest t3 = decide (k.val = 2))
    (hm4 : markerTest t4 = decide (k.val = 3)) :
    extractQuiz (mdQuizRaw qt l1 t1 l2 t2 l3 t3 l4 t4) =
      { quiz := some [{ question := qt, options := [t1, t2, t3, t4],
                        answer := .num k.val }],
        message := readyMessage } := by
  have havoid := mdQuizRaw_avoid hqt h1 h2 h3 h4 hl1 hl2 hl3 hl4
  have hbt : ∀ ch ∈ mdQuizRaw qt l1 t1 l2 t2 l3 t3 l4 t4, ch ≠ '`' :=
    fun ch hch => (havoid ch hch).2.2.1
  have hbrace : ∀ ch ∈ mdQuizRaw qt l1 t1 l2 t2 l3 t3 l4 t4, ch ≠ '\x7b' :=
    fun ch hch => (havoid ch hch).2.2.2.1
  have hquote : ∀ ch ∈ mdQuizRaw qt l1 t1 l2 t2 l3 t3 l4 t4, ch ≠ '"' :=
    fun ch hch => (havoid ch hch).2.2.2.2
  have hcf : codeFence (mdQuizRaw qt l1 t1 l2 t2 l3 t3 l4 t4) = none :=
    codeFence_none hbt
  have hbs : braceSlice (mdQuizRaw qt l1 t1 l2 t2 l3 t3 l4 t4) =
      mdQuizRaw qt l1 t1 l2 t2 l3 t3 l4 t4 := braceSlice_id hbrace
  have hqf : questionsFragment (mdQuizRaw qt l1 t1 l2 t2 l3 t3 l4 t4) = none :=
    questionsFragment_none hquote
  have hjp : jsonParse (mdQuizRaw qt l1 t1 l2 t2 l3 t3 l4 t4) = none :=
    jsonParse_oneparen _
  obtain ⟨w, hw⟩ : ∃ w, cleanJson (mdQuizRaw qt l1 t1 l2 t2 l3 t3 l4 t4) =
      '1' :: ')' :: w := cleanJson_oneparen hbt
  have hjp2 : jsonParse (cleanJson (mdQuizRaw qt l1 t1 l2 t2 l3 t3 l4 t4)) = none := by
    rw [hw]
    exact jsonParse_oneparen w
  have htpc : tryParseCandidates [mdQuizRaw qt l1 t1 l2 t2 l3 t3 l4 t4,
      cleanJson (mdQuizRaw qt l1 t1 l2 t2 l3 t3 l4 t4)] = none := by
    rw [tryParseCandidates_head_fail (Or.inl hjp),
        tryParseCandidates_head_fail (Or.inl hjp2)]
    rfl
  have hlines := cleanedLines_mdQuizRaw hqt h1 h2 h3 h4 hl1 hl2 hl3 hl4
  have nlq : ∀ ch ∈ qt, ch ≠ '\n' ∧ ch ≠ '\r' := fun ch hch =>
    ⟨(hqt.2.2 ch hch).2.2.2.2.2.1, (hqt.2.2 ch hch).2.2.2.2.2.2⟩
  have nl1 : ∀ ch ∈ t1, ch ≠ '\n' ∧ ch ≠ '\r' := fun ch hch =>
    ⟨(h1.2.2 ch hch).2.2.2.2.2.1, (h1.2.2 ch hch).2.2.2.2.2.2⟩
  have nl2 : ∀ ch ∈ t2, ch ≠ '\n' ∧ ch ≠ '\r' := fun ch hch =>
    ⟨(h2.2.2 ch hch).2.2.2.2.2.1, (h2.2.2 ch hch).2.2.2.2.2.2⟩
  have nl3 : ∀ ch ∈ t3, ch ≠ '\n' ∧ ch ≠ '\r' := fun ch hch =>
    ⟨(h3.2.2 ch hch).2.2.2.2.2.1, (h3.2.2 ch hch).2.2.2.2.2.2⟩
  have nl4 : ∀ ch ∈ t4, ch ≠ '\n' ∧ ch ≠ '\r' := fun ch hch =>
    ⟨(h4.2.2 ch hch).2.2.2.2.2.1, (h4.2.2 ch hch).2.2.2.2.2.2⟩
  have hqm : questionLineMatch (mdQuestionLine qt) = some qt :=
    questionLineMatch_mk hqt.1 hqt.2.1 nlq
  have hq1 : questionLineMatch (mdOptionLine l1 t1) = none :=
    questionLineMatch_nondigit (optionLetter_not_digit hl1) _
  have hq2 : questionLineMatch (mdOptionLine l2 t2) = none :=
    questionLineMatch_nondigit (optionLetter_not_digit hl2) _
  have hq3 : questionLineMatch (mdOptionLine l3 t3) = none :=
    questionLineMatch_nondigit (optionLetter_not_digit hl3) _
  have hq4 : questionLineMatch (mdOptionLine l4 t4) = none :=
    questionLineMatch_nondigit (optionLetter_not_digit hl4) _
  have ho1 : optionLineMatch (mdOptionLine l1 t1) = some t1 :=
    optionLineMatch_mk hl1 h1.1 h1.2.1 nl1
  have ho2 : optionLineMatch (mdOptionLine l2 t2) = some t2 :=
    optionLineMatch_mk hl2 h2.1 h2.2.1 nl2
  have ho3 : optionLineMatch (mdOptionLine l3 t3) = some t3 :=
    optionLineMatch_mk hl3 h3.1 h3.2.1 nl3
  have ho4 : optionLineMatch (mdOptionLine l4 t4) = some t4 :=
    optionLineMatch_mk hl4 h4.1 h4.2.1 nl4
  have s0 : mdStep ([], none) (mdQuestionLine qt) =
      ([], some ⟨qt, [], .num 0⟩) := by
    unfold mdStep
    rw [hqm]
    dsimp only
    rw [hqt.2.1]
  unfold extractQuiz
  dsimp only
  rw [hcf]
  dsimp only
  rw [hbs, hqf]
  dsimp only
  simp only [List.append_nil]
  rw [htpc]
  dsimp only
  unfold markdownQuiz
  dsimp only
  rw [hlines]
  simp only [List.foldl_cons, List.foldl_nil]
  rw [s0]
  rw [mdStep_option hq1 ho1 h1.2.1
    (show ([] : List (List Char)).length < 4 by decide)]
  simp only [List.nil_append]
  rw [mdStep_option hq2 ho2 h2.2.1
    (show ([t1] : List (List Char)).length < 4 by simp)]
  simp only [List.cons_append, List.nil_append]
  rw [mdStep_option hq3 ho3 h3.2.1
    (show ([t1, t2] : List (List Char)).length < 4 by simp)]
  simp only [List.cons_append, List.nil_append]
  rw [mdStep_option hq4 ho4 h4.2.1
    (show ([t1, t2, t3] : List (List Char)).length < 4 by simp)]
  simp only [List.cons_append, List.nil_append]
  try dsimp only
  rw [if_pos (show ([t1, t2, t3, t4] : List (List Char)).length = 4 by simp)]
  simp only [List.nil_append, List.isEmpty_cons, Bool.false_eq_true, if_false]
  rw [hm1, hm2, hm3, hm4]
  fin_cases k <;> simp

/-- Witness for C6: a concrete four-option quiz whose second option is
marked «(верно)» is recovered with answer index 1. -/
theorem extractQuiz_markdown_fallback_witness :
    extractQuiz (mdQuizRaw "Сколько будет 2+2?".toList
        'A' "три".toList 'B' "четыре (верно)".toList
        'C' "пять".toList 'D' "шесть".toList) =
      { quiz := some [{ question := "Сколько будет 2+2?".toList,
                        options := ["три".toList, "четыре (верно)".toList,
                                    "пять".toList, "шесть".toList],
                        answer := .num 1 }],
        message := readyMessage } :=
  extractQuiz_markdown_fallback (by decide) (by decide) (by decide) (by decide)
    (by decide) (by decide) (by decide) (by decide) (by decide)
    ⟨1, by decide⟩ (by decide) (by decide) (by decide) (by decide)
